import Mathlib

/-!
Verification of the duplicate-resolution engine of `hubspot_duplicate_checker.py`
(automationsAC/ProcessLeads).

The Python source is shallowly embedded: pure helpers (`normalize_text`,
`normalize_phone`, the rapidfuzz scorers, the matching cascade, the decision
aggregation of `process_lead`, the batch loop of `process_batch`) become Lean
functions.  Remote systems (HubSpot search endpoints, the Airtable directory,
the Supabase store) are modelled as oracle records: a remote search is a pure
function from the query to the result list, and every adapter additionally
reports the list of remote calls it actually issued, so that "no remote call
was made" is a provable statement.  Unicode-dependent library primitives
(`str.lower`, NFKD decomposition, combining-class tests, `phonenumbers`) are
fields of explicit library records; theorems that need facts about them (for
example, that NFKD is the identity on lower-case ASCII alphanumerics) take
those facts as hypotheses.
-/

/-! ## Character classes (Python `re` classes after lower-casing) -/

/-- Whitespace characters recognised by Python's `str.strip`, `str.split` and
the regex class `\s` on `str` patterns (the Unicode whitespace set). -/
def isSpaceChar (c : Char) : Bool :=
  (c == ' ') || (c == '\t') || (c == '\n') || (c == '\r') || (c == '\u000B') ||
  (c == '\u000C') || (c == '\u0085') || (c == '\u00A0') || (c == '\u1680') ||
  (c == '\u2000') || (c == '\u2001') || (c == '\u2002') || (c == '\u2003') ||
  (c == '\u2004') || (c == '\u2005') || (c == '\u2006') || (c == '\u2007') ||
  (c == '\u2008') || (c == '\u2009') || (c == '\u200A') || (c == '\u2028') ||
  (c == '\u2029') || (c == '\u202F') || (c == '\u205F') || (c == '\u3000')

/-- Characters matched by `[a-z0-9]`, i.e. the class kept (outside whitespace)
by the substitution `re.sub(r"[^a-z0-9\s]", " ", s)`. -/
def isLowerAlnum (c : Char) : Bool :=
  (('a' ≤ c) && (c ≤ 'z')) || (('0' ≤ c) && (c ≤ '9'))

/-- Characters left untouched by `re.sub(r"[^a-z0-9\s]", " ", s)`. -/
def keepChar (c : Char) : Bool :=
  isLowerAlnum c || isSpaceChar c

/-- Characters that may occur in a fully normalized string: lower-case ASCII
alphanumerics and the single space. -/
def goodChar (c : Char) : Bool :=
  isLowerAlnum c || (c == ' ')

/-! ## Python string primitives (`strip`, `split`, whitespace collapsing) -/

/-- Drop trailing whitespace (the right half of Python `str.strip()`). -/
def stripTrail : List Char → List Char
  | [] => []
  | c :: rest =>
    match stripTrail rest with
    | [] => if isSpaceChar c then [] else [c]
    | r => c :: r

/-- Model of Python `str.strip()` on the character list of a string. -/
def pyStrip (l : List Char) : List Char :=
  stripTrail (l.dropWhile isSpaceChar)

/-- Model of Python `str.strip()` on strings. -/
def pyStripStr (s : String) : String :=
  String.mk (pyStrip s.data)

/-- Replace every maximal run of whitespace by a single space: the effect of
`re.sub(r"\s+", " ", s)`. -/
def collapseWS : List Char → List Char
  | [] => []
  | [c] => if isSpaceChar c then [' '] else [c]
  | a :: b :: rest =>
    if isSpaceChar a then
      if isSpaceChar b then collapseWS (b :: rest)
      else ' ' :: collapseWS (b :: rest)
    else a :: collapseWS (b :: rest)

/-- Replace every character outside `[a-z0-9\s]` by a space: the effect of
`re.sub(r"[^a-z0-9\s]", " ", s)`. -/
def scrub (l : List Char) : List Char :=
  l.map (fun c => if keepChar c then c else ' ')

/-- Accumulator-style worker for `splitWS`; `cur` holds the (reversed)
current token. -/
def splitWSAux : List Char → List Char → List (List Char)
  | cur, [] => if cur = [] then [] else [cur.reverse]
  | cur, c :: rest =>
    if isSpaceChar c then
      if cur = [] then splitWSAux [] rest else cur.reverse :: splitWSAux [] rest
    else splitWSAux (c :: cur) rest

/-- Model of Python `str.split()` with no argument: split on whitespace runs,
discarding empty pieces. -/
def splitWS (l : List Char) : List (List Char) :=
  splitWSAux [] l

/-! ## Fuzzy scorer (model of the rapidfuzz functions used by the source)

Scores are exact rationals in `[0, 100]`; rapidfuzz returns the same values
as IEEE doubles.  `fuzz.ratio` is the normalized InDel similarity
`100 * 2 * lcs(a, b) / (|a| + |b|)`; `fuzz.token_set_ratio` is the classic
token-set construction over the sorted deduplicated token lists; and
`fuzz.partial_ratio` takes the best `ratio` alignment of the shorter string
against the sliding windows of the longer one, evaluating both orders for
equal-length inputs. -/

/-- Length of the longest common subsequence of two character lists. -/
def lcs : List Char → List Char → Nat
  | [], _ => 0
  | _ :: _, [] => 0
  | a :: as, b :: bs =>
    if a = b then lcs as bs + 1
    else max (lcs (a :: as) bs) (lcs as (b :: bs))
termination_by x y => x.length + y.length

/-- Model of `fuzz.ratio` on character lists: normalized InDel similarity.
Two empty strings count as identical (score 100), as in rapidfuzz. -/
def ratioL (a b : List Char) : ℚ :=
  if a.length + b.length = 0 then 100
  else (200 * lcs a b : ℚ) / (a.length + b.length : ℚ)

/-- Model of `fuzz.ratio` on strings. -/
def ratioFz (a b : String) : ℚ :=
  ratioL a.data b.data

/-- Sliding windows of `hay` used by the partial-ratio alignment search for a
needle of length `n`: every full window of length `n` together with the
shorter windows hanging off either end. -/
def prWindows (n : Nat) (hay : List Char) : List (List Char) :=
  (List.range (hay.length + n - 1)).map
    (fun i => (hay.drop (i + 1 - n)).take (min (i + 1) n))

/-- One direction of the partial-ratio search: the best `ratioL` score of the
needle against the windows of the haystack. -/
def prImpl (needle hay : List Char) : ℚ :=
  ((prWindows needle.length hay).map (fun w => ratioL needle w)).foldl max 0

/-- Model of `fuzz.partial_ratio`: the shorter string is the needle; for
equal-length inputs both orders are tried (as rapidfuzz does, which makes the
scorer symmetric). -/
def part_ratio (a b : String) : ℚ :=
  if a.data.length < b.data.length then prImpl a.data b.data
  else if b.data.length < a.data.length then prImpl b.data a.data
  else max (prImpl a.data b.data) (prImpl b.data a.data)

/-- Whitespace-split tokens of a string (Python `s.split()`). -/
def tokens (s : String) : List String :=
  (splitWS s.data).map (fun l => String.mk l)

/-- Join a token list with single spaces (Python `" ".join(...)`). -/
def joinSp : List String → String
  | [] => ""
  | [t] => t
  | t :: ts => t ++ " " ++ joinSp ts

/-- Sorted token list of a string (Python `sorted(s.split())`). -/
def sortedTokens (s : String) : List String :=
  (tokens s).insertionSort (· ≤ ·)

/-- Sorted deduplicated token list of a string (Python `sorted(set(s.split()))`). -/
def sortedTokenSet (s : String) : List String :=
  ((tokens s).dedup).insertionSort (· ≤ ·)

/-- Model of `fuzz.token_set_ratio`: the classic token-set construction, the
best `ratio` among the joined intersection and the two one-sided unions of
the deduplicated sorted token lists. -/
def token_set_ratio (a b : String) : ℚ :=
  let ta := sortedTokenSet a
  let tb := sortedTokenSet b
  let sect := ta.filter (fun t => decide (t ∈ tb))
  let d1 := ta.filter (fun t => decide (t ∉ tb))
  let d2 := tb.filter (fun t => decide (t ∉ ta))
  let s0 := joinSp sect
  let s1 := joinSp (sect ++ d1)
  let s2 := joinSp (sect ++ d2)
  max (ratioFz s0 s1) (max (ratioFz s0 s2) (ratioFz s1 s2))

/-- Model of `fuzz.partial_token_sort_ratio`: `partial_ratio` of the
space-joined sorted token lists. -/
def part_token_sort_ratio (a b : String) : ℚ :=
  part_ratio (joinSp (sortedTokens a)) (joinSp (sortedTokens b))

/-- Property-name similarity used by the deal and directory categories:
`max(fuzz.token_set_ratio(a, b), fuzz.partial_token_sort_ratio(a, b))`. -/
def propScore (a b : String) : ℚ :=
  max (token_set_ratio a b) (part_token_sort_ratio a b)

/-! ## Normalizer (`normalize_text`, `normalize_phone`) -/

/-- Unicode primitives used by `normalize_text`: Python `str.lower`, the NFKD
normalization `unicodedata.normalize("NFKD", s)`, and the combining-class test
`unicodedata.combining(c)`.  They are carried as explicit data; theorems that
need Unicode facts about them state those facts as hypotheses. -/
structure TextLib where
  lower : List Char → List Char
  nfkd : List Char → List Char
  isCombining : Char → Bool

/-- Model of `HubSpotDuplicateChecker.normalize_text`.  `none` models a
non-string input (`not isinstance(value, str)`), which yields `""`. -/
def normalize_text (lib : TextLib) (value : Option String) : String :=
  match value with
  | none => ""
  | some str =>
    let s := pyStrip str.data
    let s := lib.lower s
    let s := lib.nfkd s
    let s := s.filter (fun c => ! lib.isCombining c)
    let s := scrub s
    let s := collapseWS s
    String.mk (pyStrip s)

/-- Model of the `phonenumbers` library: `parse` returns `none` where the
Python call raises, and the predicates mirror `is_possible_number`,
`is_valid_number` and E.164 formatting.  `upper` models Python `str.upper`. -/
structure PhoneLib where
  PNum : Type
  parse : String → Option String → Option PNum
  is_possible : PNum → Bool
  is_valid : PNum → Bool
  formatE164 : PNum → String
  upper : String → String

/-- Default-region computation of `normalize_phone`: the upper-cased country
hint when it is a non-blank string, else no default region. -/
def phoneDefaultRegion (plib : PhoneLib) (country_code : Option String) : Option String :=
  match country_code with
  | none => none
  | some c => if pyStripStr c = "" then none else some (plib.upper c)

/-- Model of `HubSpotDuplicateChecker.normalize_phone`.  `phone = none` models
a non-string input; a `parse` failure (a raised exception in Python) yields
`none`. -/
def normalize_phone (plib : PhoneLib) (phone : Option String)
    (country_code : Option String) : Option String :=
  match phone with
  | none => none
  | some p =>
    let raw := pyStripStr p
    if raw = "" then none
    else
      match plib.parse raw (phoneDefaultRegion plib country_code) with
      | none => none
      | some num =>
        if plib.is_possible num && plib.is_valid num then
          some (plib.formatE164 num)
        else none

/-! ## Data model: leads, candidate records, category results, decisions -/

/-- A lead row fetched from `contacts_grid_view` (fields read by the cascade;
`dict.get(key, "")` defaults are the empty string). -/
structure Lead where
  id : Nat := 0
  email : String := ""
  phone : String := ""
  first_name : String := ""
  last_name : String := ""
  company : String := ""
  property_name : String := ""
  city : String := ""
  country : String := ""
deriving DecidableEq

/-- A HubSpot contact candidate (the `properties` sub-object of a search
result, plus its record id). -/
structure Contact where
  id : String := ""
  email : String := ""
  firstname : String := ""
  lastname : String := ""
  phone : String := ""
deriving DecidableEq

/-- A HubSpot deal candidate. -/
structure Deal where
  id : String := ""
  dealname : String := ""
deriving DecidableEq

/-- An Airtable record candidate: `fields["Name"]` is scored, while
`fields["Property Name"]` is what a found result reports. -/
structure AirRecord where
  id : String := ""
  nameField : String := ""
  propertyNameField : String := ""
deriving DecidableEq

/-- Result of `check_contact_duplicates` (the fields of the returned dict;
when `found = false` the Python dict has no other keys, modelled by the
defaults). -/
structure ContactCheck where
  found : Bool
  contact_id : String := ""
  contact_email : String := ""
  contact_phone : String := ""
  contact_name : String := ""
  match_type : Option String := none
deriving DecidableEq

/-- Result of `check_deal_duplicates`. -/
structure DealCheck where
  found : Bool
  deal_id : String := ""
  deal_name : String := ""
  deal_score : ℚ := 0
deriving DecidableEq

/-- Result of `check_alohacamp_duplicates`. -/
structure AlohaCheck where
  found : Bool
  match_id : String := ""
  match_name : String := ""
  score : ℚ := 0
deriving DecidableEq

/-- A remote query actually issued by an adapter during one cascade run. -/
inductive RemoteCall where
  | email (value : String)
  | phone (value : String)
  | name (first last : String)
  | deals (property : String)
  | air (property : String)
deriving DecidableEq

/-- Oracle for the remote search services of one run: each field gives the
result list the remote end would return for a query.  `airtableProps = none`
models a checker constructed without an Airtable client
(`self.airtable = None`). -/
structure RemoteEnv where
  contactsByEmail : String → List Contact
  contactsByPhone : String → List Contact
  contactsByName : String → String → List Contact
  dealsByName : String → List Deal
  airtableProps : Option (String → List AirRecord)

/-! ## Candidate source adapters (the guarded client methods) -/

/-- Model of `HubSpotClient.search_contacts_by_email`: the literal guard
`if not email or email == "nan"` short-circuits to an empty result with no
remote call. -/
def search_contacts_by_email (env : RemoteEnv) (email : String) :
    List Contact × List RemoteCall :=
  if email = "" || email = "nan" then ([], [])
  else (env.contactsByEmail email, [RemoteCall.email email])

/-- Model of `HubSpotClient.search_contacts_by_phone`. -/
def search_contacts_by_phone (env : RemoteEnv) (phone_e164 : String) :
    List Contact × List RemoteCall :=
  if phone_e164 = "" then ([], [])
  else (env.contactsByPhone phone_e164, [RemoteCall.phone phone_e164])

/-- Model of `HubSpotClient.search_contacts_by_name`: no query is issued when
both name parts are blank; only non-blank parts contribute filters. -/
def search_contacts_by_name (env : RemoteEnv) (first_name last_name : String) :
    List Contact × List RemoteCall :=
  if first_name = "" && last_name = "" then ([], [])
  else (env.contactsByName first_name last_name, [RemoteCall.name first_name last_name])

/-- Model of `HubSpotClient.search_deals_by_property_name`. -/
def search_deals_by_property_name (env : RemoteEnv) (property_name : String) :
    List Deal × List RemoteCall :=
  if property_name = "" then ([], [])
  else (env.dealsByName property_name, [RemoteCall.deals property_name])

/-- Model of `AirtableClient.search_properties` for a configured client
`search`: a blank property name issues no query. -/
def search_properties (search : String → List AirRecord) (property_name : String) :
    List AirRecord × List RemoteCall :=
  if property_name = "" then ([], [])
  else (search property_name, [RemoteCall.air property_name])

/-! ## Matching cascade -/

/-- Acceptance test on a fuzzy-name score pair: Python
`if first_score >= 80 or last_score >= 80`. -/
def acceptScorePair (first_score last_score : ℚ) : Bool :=
  decide (80 ≤ first_score) || decide (80 ≤ last_score)

/-- Per-candidate name scores of the fuzzy-name strategy: each part is scored
only when both sides of that part are non-empty, and is `0` otherwise. -/
def nameScores (lib : TextLib) (first_name last_name : String) (c : Contact) : ℚ × ℚ :=
  (if first_name ≠ "" ∧ c.firstname ≠ "" then
      ratioFz (normalize_text lib (some first_name)) (normalize_text lib (some c.firstname))
    else 0,
   if last_name ≠ "" ∧ c.lastname ≠ "" then
      ratioFz (normalize_text lib (some last_name)) (normalize_text lib (some c.lastname))
    else 0)

/-- Whether the fuzzy-name loop accepts candidate `c`. -/
def nameAccept (lib : TextLib) (first_name last_name : String) (c : Contact) : Bool :=
  acceptScorePair (nameScores lib first_name last_name c).1
    (nameScores lib first_name last_name c).2

/-- Email/phone stage of `check_contact_duplicates`: the candidate list,
match type, and phone-stage remote calls after the exact-email and phone
strategies (the email search's own calls are accounted separately, as `k1`
in the source). -/
def contactStage2 (plib : PhoneLib) (env : RemoteEnv) (lead : Lead) :
    List Contact × Option String × List RemoteCall :=
  if (search_contacts_by_email env lead.email).1 ≠ [] then
    ((search_contacts_by_email env lead.email).1, some "email", [])
  else
    match normalize_phone plib (some lead.phone) (some lead.country) with
    | some p =>
      if p ≠ "" then
        ((search_contacts_by_phone env p).1,
         if (search_contacts_by_phone env p).1 ≠ [] then some "phone" else none,
         (search_contacts_by_phone env p).2)
      else ([], none, [])
    | none => ([], none, [])

/-- Fuzzy-name stage of `check_contact_duplicates`, applied to the state left
by the email/phone stage: only entered when the earlier strategies produced
nothing and some name part is non-empty; accepts the first candidate passing
`nameAccept`, in search order. -/
def contactStage3 (lib : TextLib) (env : RemoteEnv) (lead : Lead)
    (st : List Contact × Option String × List RemoteCall) :
    List Contact × Option String × List RemoteCall :=
  if st.1 = [] ∧ (lead.first_name ≠ "" ∨ lead.last_name ≠ "") then
    match (search_contacts_by_name env lead.first_name lead.last_name).1.find?
        (nameAccept lib lead.first_name lead.last_name) with
    | some c =>
      ([c], some "name",
       st.2.2 ++ (search_contacts_by_name env lead.first_name lead.last_name).2)
    | none =>
      ([], st.2.1,
       st.2.2 ++ (search_contacts_by_name env lead.first_name lead.last_name).2)
  else st

/-- Model of `HubSpotDuplicateChecker.check_contact_duplicates`: exact email
lookup, then phone lookup (only when the email lookup was empty and the phone
normalized), then the fuzzy-name loop (only when both earlier strategies
produced nothing and some name part is non-empty).  Also returns the remote
calls issued. -/
def check_contact_duplicates (lib : TextLib) (plib : PhoneLib) (env : RemoteEnv)
    (lead : Lead) : ContactCheck × List RemoteCall :=
  let stage3 := contactStage3 lib env lead (contactStage2 plib env lead)
  match stage3.1 with
  | c :: _ =>
    ({ found := true, contact_id := c.id, contact_email := c.email,
       contact_phone := c.phone,
       contact_name := pyStripStr (c.firstname ++ " " ++ c.lastname),
       match_type := stage3.2.1 },
     (search_contacts_by_email env lead.email).2 ++ stage3.2.2)
  | [] =>
    ({ found := false }, (search_contacts_by_email env lead.email).2 ++ stage3.2.2)

/-- Best-candidate fold of the deal/directory categories: Python's
`if score > best_score: best_score = score; best_match = d` loop, starting
from `best_match = None, best_score = 0`. -/
def bestFold {α : Type} (score : α → ℚ) (l : List α) (acc : Option α × ℚ) :
    Option α × ℚ :=
  l.foldl (fun acc d => if acc.2 < score d then (some d, score d) else acc) acc

/-- Model of `HubSpotDuplicateChecker.check_deal_duplicates`. -/
def check_deal_duplicates (lib : TextLib) (env : RemoteEnv) (lead : Lead) :
    DealCheck × List RemoteCall :=
  if lead.property_name = "" then ({ found := false }, [])
  else
    let deal_results := (search_deals_by_property_name env lead.property_name).1
    let k := (search_deals_by_property_name env lead.property_name).2
    if deal_results = [] then ({ found := false }, k)
    else
      let property_norm := normalize_text lib (some lead.property_name)
      let best := bestFold
        (fun d => propScore property_norm (normalize_text lib (some d.dealname)))
        deal_results (none, 0)
      match best.1 with
      | some d =>
        if 70 ≤ best.2 then
          ({ found := true, deal_id := d.id, deal_name := d.dealname,
             deal_score := best.2 }, k)
        else ({ found := false }, k)
      | none => ({ found := false }, k)

/-- Model of `HubSpotDuplicateChecker.check_alohacamp_duplicates`: with no
Airtable client configured the category yields not-found with no remote
call. -/
def check_alohacamp_duplicates (lib : TextLib) (env : RemoteEnv) (lead : Lead) :
    AlohaCheck × List RemoteCall :=
  match env.airtableProps with
  | none => ({ found := false }, [])
  | some search =>
    if lead.property_name = "" then ({ found := false }, [])
    else
      let airtable_results := (search_properties search lead.property_name).1
      let k := (search_properties search lead.property_name).2
      if airtable_results = [] then ({ found := false }, k)
      else
        let property_norm := normalize_text lib (some lead.property_name)
        let best := bestFold
          (fun r => propScore property_norm (normalize_text lib (some r.nameField)))
          airtable_results (none, 0)
        match best.1 with
        | some r =>
          if 70 ≤ best.2 then
            ({ found := true, match_id := r.id, match_name := r.propertyNameField,
               score := best.2 }, k)
          else ({ found := false }, k)
        | none => ({ found := false }, k)

/-! ## Decision aggregation and batch driver -/

/-- Contact-linkage fields written when the contact category found a match. -/
structure ContactLink where
  contact_id : String
  contact_email : String
  contact_phone : String
  contact_name : String
  match_type : Option String
deriving DecidableEq

/-- Deal-linkage fields written when the deal category found a match. -/
structure DealLink where
  deal_id : String
  deal_name : String
  deal_score : ℚ
deriving DecidableEq

/-- Directory-linkage fields written when the directory category found a
match. -/
structure AlohaLink where
  match_id : String
  match_name : String
  score : ℚ
deriving DecidableEq

/-- The update record written back for one lead by `process_lead` (the
`update_data` dict; the wall-clock `hubspot_checked_at_2` timestamp is not
modelled).  `alohacamp_exists_2` is an unconditional boolean column, while the
linkage groups are present exactly when the respective category found a
match. -/
structure UpdateData where
  status : String
  needs_deal : Bool
  reason : String
  contact : Option ContactLink
  deal : Option DealLink
  alohacamp_exists : Bool
  aloha : Option AlohaLink
deriving DecidableEq

/-- Model of `HubSpotDuplicateChecker.process_lead`: run the three category
checks, aggregate the verdict by the fixed priority order, and assemble the
update record. -/
def process_lead (lib : TextLib) (plib : PhoneLib) (env : RemoteEnv) (lead : Lead) :
    UpdateData × List RemoteCall :=
  let contact_check := (check_contact_duplicates lib plib env lead).1
  let kc := (check_contact_duplicates lib plib env lead).2
  let deal_check := (check_deal_duplicates lib env lead).1
  let kd := (check_deal_duplicates lib env lead).2
  let alohacamp_check := (check_alohacamp_duplicates lib env lead).1
  let ka := (check_alohacamp_duplicates lib env lead).2
  let verdict : String × Bool × String :=
    if contact_check.found then ("duplicate", true, "contact_duplicate")
    else if deal_check.found then ("duplicate", false, "deal_exists")
    else if alohacamp_check.found then ("duplicate", false, "alohacamp_exists")
    else ("unique", true, "new_lead")
  ({ status := verdict.1,
     needs_deal := verdict.2.1,
     reason := verdict.2.2,
     contact :=
       if contact_check.found then
         some ⟨contact_check.contact_id, contact_check.contact_email,
               contact_check.contact_phone, contact_check.contact_name,
               contact_check.match_type⟩
       else none,
     deal :=
       if deal_check.found then
         some ⟨deal_check.deal_id, deal_check.deal_name, deal_check.deal_score⟩
       else none,
     alohacamp_exists := alohacamp_check.found,
     aloha :=
       if alohacamp_check.found then
         some ⟨alohacamp_check.match_id, alohacamp_check.match_name,
               alohacamp_check.score⟩
       else none }, kc ++ kd ++ ka)

/-- Run summary returned by `process_batch`. -/
structure BatchSummary where
  leads_processed : Nat
  updated_count : Nat
  errors : Nat
deriving DecidableEq

/-- One iteration of the `process_batch` loop over the accumulated
`(updated_count, errors)` pair.  `runLead` models `process_lead` together
with any exception its adapters may raise, and `updateStore` models the
Supabase update (its `Bool` is the truthiness of `result.data`); an
`Except.error` on either is the raised exception caught by the per-lead
`try/except`, which only increments the error counter. -/
def lead_step (runLead : Lead → Except String UpdateData)
    (updateStore : Lead → UpdateData → Except String Bool)
    (acc : Nat × Nat) (lead : Lead) : Nat × Nat :=
  match runLead lead with
  | Except.error _ => (acc.1, acc.2 + 1)
  | Except.ok u =>
    match updateStore lead u with
    | Except.error _ => (acc.1, acc.2 + 1)
    | Except.ok hasData => (if hasData then acc.1 + 1 else acc.1, acc.2)

/-- Model of `HubSpotDuplicateChecker.process_batch` on an already-fetched
lead list: an empty fetch is the batch-fatal error dict, otherwise every lead
is visited in order and the summary counts are returned. -/
def process_batch (leads : List Lead) (runLead : Lead → Except String UpdateData)
    (updateStore : Lead → UpdateData → Except String Bool) :
    Except String BatchSummary :=
  match leads with
  | [] => Except.error "No leads found to process"
  | _ =>
    let counts := leads.foldl (lead_step runLead updateStore) (0, 0)
    Except.ok ⟨leads.length, counts.1, counts.2⟩

/-- Whether one lead's processing raises (and is caught and counted): either
the cascade raised or the store update raised. -/
def leadFails (runLead : Lead → Except String UpdateData)
    (updateStore : Lead → UpdateData → Except String Bool) (lead : Lead) : Bool :=
  match runLead lead with
  | Except.error _ => true
  | Except.ok u =>
    match updateStore lead u with
    | Except.error _ => true
    | Except.ok _ => false

/-- Whether one lead's processing succeeds with a confirmed row update. -/
def leadUpdates (runLead : Lead → Except String UpdateData)
    (updateStore : Lead → UpdateData → Except String Bool) (lead : Lead) : Bool :=
  match runLead lead with
  | Except.error _ => false
  | Except.ok u =>
    match updateStore lead u with
    | Except.error _ => false
    | Except.ok hasData => hasData

/-! ## Normal form of normalized text -/

/-- No two adjacent whitespace characters. -/
def chainNoWS : List Char → Bool
  | [] => true
  | [_] => true
  | a :: b :: rest => (!(isSpaceChar a && isSpaceChar b)) && chainNoWS (b :: rest)

/-- The first character, if any, is not whitespace. -/
def headNotSpace (l : List Char) : Bool :=
  match l with
  | [] => true
  | c :: _ => !isSpaceChar c

/-- The last character, if any, is not whitespace. -/
def lastNotSpace : List Char → Bool
  | [] => true
  | [c] => !isSpaceChar c
  | _ :: b :: rest => lastNotSpace (b :: rest)

/-- Normal form of the output of `normalize_text`: only lower-case ASCII
alphanumerics and single separating spaces, with no leading or trailing
space. -/
def normFormB (l : List Char) : Bool :=
  l.all goodChar && chainNoWS l && headNotSpace l && lastNotSpace l

/-! ## Concrete fixtures used by witness theorems -/

/-- A concrete `TextLib`: identity lower-casing and NFKD, no combining
characters (adequate for ASCII witnesses). -/
def textLibA : TextLib :=
  ⟨id, id, fun _ => false⟩

/-- A concrete `PhoneLib` whose parser always fails. -/
def phoneLibA : PhoneLib :=
  ⟨Unit, fun _ _ => none, fun _ => true, fun _ => true, fun _ => "", fun s => s⟩

/-- A concrete `PhoneLib` whose parser accepts every non-blank string and
formats it with a leading plus. -/
def phoneLibB : PhoneLib :=
  ⟨String, fun raw _ => some raw, fun _ => true, fun _ => true,
   fun raw => "+" ++ raw, fun s => s⟩

/-- A concrete contact candidate. -/
def contactA : Contact :=
  ⟨"c1", "ann@x.com", "Ann", "Lee", "+48100200300"⟩

/-- A concrete deal candidate whose name matches `leadA`'s property name. -/
def dealA : Deal :=
  ⟨"d1", "ab"⟩

/-- A concrete deal candidate with an unrelated name. -/
def dealB : Deal :=
  ⟨"d2", "zz"⟩

/-- A concrete Airtable candidate whose scored name matches `leadA`'s
property name. -/
def airA : AirRecord :=
  ⟨"r1", "ab", "AB Prop"⟩

/-- A concrete lead. -/
def leadA : Lead :=
  { id := 1, email := "a@x.com", first_name := "Ann", last_name := "Lee",
    property_name := "ab" }

/-- A second concrete lead. -/
def leadB : Lead :=
  { id := 2 }

/-- An oracle with no remote data and no Airtable client. -/
def envEmpty : RemoteEnv :=
  ⟨fun _ => [], fun _ => [], fun _ _ => [], fun _ => [], none⟩

/-- An oracle returning one contact for every email query, two deals, and one
Airtable record. -/
def envA : RemoteEnv :=
  ⟨fun _ => [contactA], fun _ => [], fun _ _ => [], fun _ => [dealB, dealA],
   some (fun _ => [airA])⟩

/-- A concrete update record. -/
def updA : UpdateData :=
  ⟨"unique", true, "new_lead", none, none, false, none⟩

/-- A concrete per-lead runner that raises on lead 1 and succeeds
otherwise. -/
def runLeadA : Lead → Except String UpdateData :=
  fun l => if l.id = 1 then Except.error "boom" else Except.ok updA

/-- A concrete store-update function that always confirms the write. -/
def updateStoreA : Lead → UpdateData → Except String Bool :=
  fun _ _ => Except.ok true

/-- Running maximum of candidate scores, the score half of the best-candidate
fold. -/
def scoreMax {α : Type} (score : α → ℚ) (l : List α) (b : ℚ) : ℚ :=
  l.foldl (fun a d => max a (score d)) b

/-- Per-deal property-name score of the deal category (the scoring step of
`check_deal_duplicates`). -/
def dealScore (lib : TextLib) (lead : Lead) (d : Deal) : ℚ :=
  propScore (normalize_text lib (some lead.property_name))
    (normalize_text lib (some d.dealname))

/-- Per-record property-name score of the directory category (the scoring
step of `check_alohacamp_duplicates`, against the `Name` field). -/
def airScore (lib : TextLib) (lead : Lead) (r : AirRecord) : ℚ :=
  propScore (normalize_text lib (some lead.property_name))
    (normalize_text lib (some r.nameField))

/-! ## Lemmas: character classes -/

theorem alnum_not_space {c : Char} (h : isLowerAlnum c = true) :
    isSpaceChar c = false := by
  cases hs : isSpaceChar c
  · rfl
  · exfalso
    simp only [isSpaceChar, Bool.or_eq_true, beq_iff_eq] at hs
    casesm* _ ∨ _ <;> subst_vars <;> exact absurd h (by decide)

theorem good_keep {c : Char} (h : goodChar c = true) : keepChar c = true := by
  simp only [goodChar, Bool.or_eq_true, beq_iff_eq] at h
  rcases h with h | rfl
  · simp [keepChar, h]
  · simp [keepChar, isSpaceChar]

theorem good_space_eq {c : Char} (hg : goodChar c = true)
    (hs : isSpaceChar c = true) : c = ' ' := by
  simp only [goodChar, Bool.or_eq_true, beq_iff_eq] at hg
  rcases hg with h | rfl
  · rw [alnum_not_space h] at hs; exact absurd hs (by simp)
  · rfl

theorem keep_not_space_alnum {c : Char} (hk : keepChar c = true)
    (hs : isSpaceChar c = false) : isLowerAlnum c = true := by
  simp only [keepChar, Bool.or_eq_true] at hk
  rcases hk with h | h
  · exact h
  · rw [h] at hs; exact absurd hs (by simp)

theorem space_isSpace : isSpaceChar ' ' = true := by decide

/-! ## Lemmas: strip and whitespace primitives -/

theorem stripTrail_subset {c : Char} : ∀ {l : List Char}, c ∈ stripTrail l → c ∈ l := by
  intro l
  induction l with
  | nil => simp [stripTrail]
  | cons a rest ih =>
    simp only [stripTrail]
    cases h : stripTrail rest with
    | nil =>
      by_cases hs : isSpaceChar a = true
      · rw [if_pos hs]; simp
      · rw [if_neg hs]
        intro hm
        simp only [List.mem_singleton] at hm
        exact hm ▸ List.mem_cons_self _ _
    | cons x xs =>
      intro hm
      rcases List.mem_cons.mp hm with rfl | hm2
      · exact List.mem_cons_self _ _
      · exact List.mem_cons_of_mem _ (ih (h ▸ hm2))

theorem stripTrail_head {y : Char} : ∀ {l : List Char},
    (stripTrail l).head? = some y → l.head? = some y := by
  intro l
  cases l with
  | nil => simp [stripTrail]
  | cons a rest =>
    simp only [stripTrail]
    cases h : stripTrail rest with
    | nil =>
      by_cases hs : isSpaceChar a = true
      · simp [hs]
      · simp only [Bool.not_eq_true] at hs
        simp [hs]
    | cons x xs => simp

theorem stripTrail_lastNotSpace : ∀ (l : List Char),
    lastNotSpace (stripTrail l) = true := by
  intro l
  induction l with
  | nil => simp [stripTrail, lastNotSpace]
  | cons a rest ih =>
    simp only [stripTrail]
    cases h : stripTrail rest with
    | nil =>
      by_cases hs : isSpaceChar a = true
      · simp [hs, lastNotSpace]
      · simp only [Bool.not_eq_true] at hs
        simp [hs, lastNotSpace]
    | cons x xs =>
      rw [h] at ih
      cases xs with
      | nil => simpa [lastNotSpace] using ih
      | cons z zs => simpa [lastNotSpace] using ih

theorem chainNoWS_cons_tail {a : Char} {l : List Char}
    (h : chainNoWS (a :: l) = true) : chainNoWS l = true := by
  cases l with
  | nil => rfl
  | cons b rest =>
    simp only [chainNoWS, Bool.and_eq_true] at h
    exact h.2

theorem chainNoWS_cons_of {x : Char} {l : List Char} (hl : chainNoWS l = true)
    (h : ∀ y, l.head? = some y → (!(isSpaceChar x && isSpaceChar y)) = true) :
    chainNoWS (x :: l) = true := by
  cases l with
  | nil => rfl
  | cons b rest =>
    simp only [chainNoWS, Bool.and_eq_true]
    exact ⟨h b rfl, hl⟩

theorem stripTrail_chain : ∀ {l : List Char}, chainNoWS l = true →
    chainNoWS (stripTrail l) = true := by
  intro l
  induction l with
  | nil => intro _; rfl
  | cons a rest ih =>
    intro hch
    simp only [stripTrail]
    cases h : stripTrail rest with
    | nil =>
      by_cases hs : isSpaceChar a = true
      · rw [if_pos hs]; rfl
      · rw [if_neg hs]; rfl
    | cons x xs =>
      have hx : rest.head? = some x := stripTrail_head (by rw [h]; rfl)
      have hch' : chainNoWS (x :: xs) = true := by
        rw [← h]; exact ih (chainNoWS_cons_tail hch)
      apply chainNoWS_cons_of hch'
      intro y hy
      simp only [List.head?_cons, Option.some.injEq] at hy
      subst hy
      cases rest with
      | nil => simp [stripTrail] at h
      | cons b rest2 =>
        simp only [List.head?_cons, Option.some.injEq] at hx
        subst hx
        simp only [chainNoWS, Bool.and_eq_true] at hch
        exact hch.1

theorem stripTrail_eq_self : ∀ {l : List Char}, lastNotSpace l = true →
    stripTrail l = l := by
  intro l
  induction l with
  | nil => intro _; rfl
  | cons a rest ih =>
    intro hl
    simp only [stripTrail]
    cases rest with
    | nil =>
      simp only [lastNotSpace, Bool.not_eq_true'] at hl
      simp [stripTrail, hl]
    | cons b rest2 =>
      have : stripTrail (b :: rest2) = b :: rest2 := by
        apply ih
        simpa [lastNotSpace] using hl
      rw [this]

theorem headNotSpace_dropWhile (l : List Char) :
    headNotSpace (l.dropWhile isSpaceChar) = true := by
  induction l with
  | nil => rfl
  | cons a rest ih =>
    by_cases hs : isSpaceChar a = true
    · simpa [List.dropWhile_cons, hs] using ih
    · simp only [Bool.not_eq_true] at hs
      simp [List.dropWhile_cons, hs, headNotSpace]

theorem chainNoWS_dropWhile {l : List Char} (h : chainNoWS l = true) :
    chainNoWS (l.dropWhile isSpaceChar) = true := by
  induction l with
  | nil => rfl
  | cons a rest ih =>
    by_cases hs : isSpaceChar a = true
    · simpa [List.dropWhile_cons, hs] using ih (chainNoWS_cons_tail h)
    · simp only [Bool.not_eq_true] at hs
      simpa [List.dropWhile_cons, hs] using h

theorem dropWhile_eq_self_of_headNotSpace {l : List Char}
    (h : headNotSpace l = true) : l.dropWhile isSpaceChar = l := by
  cases l with
  | nil => rfl
  | cons a rest =>
    simp only [headNotSpace, Bool.not_eq_true'] at h
    simp [List.dropWhile_cons, h]

theorem headNotSpace_stripTrail {l : List Char} (h : headNotSpace l = true) :
    headNotSpace (stripTrail l) = true := by
  cases hl : stripTrail l with
  | nil => rfl
  | cons x xs =>
    have hx : l.head? = some x := stripTrail_head (by rw [hl]; rfl)
    cases l with
    | nil => simp at hx
    | cons a rest =>
      simp only [List.head?_cons, Option.some.injEq] at hx
      subst hx
      simpa [headNotSpace] using h

theorem pyStrip_subset {c : Char} {l : List Char} (h : c ∈ pyStrip l) : c ∈ l :=
  (l.dropWhile_sublist isSpaceChar).subset (stripTrail_subset h)

theorem pyStrip_normParts {l : List Char} (hch : chainNoWS l = true) :
    chainNoWS (pyStrip l) = true ∧ headNotSpace (pyStrip l) = true ∧
      lastNotSpace (pyStrip l) = true :=
  ⟨stripTrail_chain (chainNoWS_dropWhile hch),
   headNotSpace_stripTrail (headNotSpace_dropWhile l),
   stripTrail_lastNotSpace _⟩

theorem pyStrip_eq_self {l : List Char} (hh : headNotSpace l = true)
    (hl : lastNotSpace l = true) : pyStrip l = l := by
  unfold pyStrip
  rw [dropWhile_eq_self_of_headNotSpace hh, stripTrail_eq_self hl]

theorem collapseWS_mem {c : Char} : ∀ {l : List Char}, c ∈ collapseWS l →
    c = ' ' ∨ (c ∈ l ∧ isSpaceChar c = false) := by
  intro l
  induction l using collapseWS.induct with
  | case1 => simp [collapseWS]
  | case2 d hs =>
    simp only [collapseWS]
    rw [if_pos hs]
    simp only [List.mem_singleton]
    intro hm
    exact Or.inl hm
  | case3 d hs =>
    simp only [collapseWS]
    rw [if_neg hs]
    simp only [List.mem_singleton]
    intro hm
    subst hm
    simp only [Bool.not_eq_true] at hs
    exact Or.inr ⟨rfl, hs⟩
  | case4 a b rest hsa hsb ih =>
    simp only [collapseWS]
    rw [if_pos hsa, if_pos hsb]
    intro hm
    rcases ih hm with h | ⟨hmem, hns⟩
    · exact Or.inl h
    · exact Or.inr ⟨List.mem_cons_of_mem _ hmem, hns⟩
  | case5 a b rest hsa hsb ih =>
    simp only [collapseWS]
    rw [if_pos hsa, if_neg hsb]
    intro hm
    rcases List.mem_cons.mp hm with rfl | hm2
    · exact Or.inl rfl
    · rcases ih hm2 with h | ⟨hmem, hns⟩
      · exact Or.inl h
      · exact Or.inr ⟨List.mem_cons_of_mem _ hmem, hns⟩
  | case6 a b rest hsa ih =>
    simp only [collapseWS]
    rw [if_neg hsa]
    intro hm
    rcases List.mem_cons.mp hm with rfl | hm2
    · simp only [Bool.not_eq_true] at hsa
      exact Or.inr ⟨List.mem_cons_self _ _, hsa⟩
    · rcases ih hm2 with h | ⟨hmem, hns⟩
      · exact Or.inl h
      · exact Or.inr ⟨List.mem_cons_of_mem _ hmem, hns⟩

theorem collapseWS_head_nonspace {b : Char} (rest : List Char)
    (h : isSpaceChar b = false) : (collapseWS (b :: rest)).head? = some b := by
  cases rest with
  | nil =>
    simp only [collapseWS]
    rw [if_neg (by simp [h])]
    rfl
  | cons c r =>
    simp only [collapseWS]
    rw [if_neg (by simp [h])]
    rfl

theorem collapseWS_chain : ∀ (l : List Char), chainNoWS (collapseWS l) = true := by
  intro l
  induction l using collapseWS.induct with
  | case1 => rfl
  | case2 d hs =>
    simp only [collapseWS]
    rw [if_pos hs]
    rfl
  | case3 d hs =>
    simp only [collapseWS]
    rw [if_neg hs]
    rfl
  | case4 a b rest hsa hsb ih =>
    simp only [collapseWS]
    rw [if_pos hsa, if_pos hsb]
    exact ih
  | case5 a b rest hsa hsb ih =>
    simp only [collapseWS]
    rw [if_pos hsa, if_neg hsb]
    apply chainNoWS_cons_of ih
    intro y hy
    rw [collapseWS_head_nonspace rest (by simpa using hsb)] at hy
    simp only [Option.some.injEq] at hy
    subst hy
    simp only [Bool.not_eq_true] at hsb
    simp [hsb]
  | case6 a b rest hsa ih =>
    simp only [collapseWS]
    rw [if_neg hsa]
    apply chainNoWS_cons_of ih
    intro y _
    simp only [Bool.not_eq_true] at hsa
    simp [hsa]

theorem collapseWS_eq_self : ∀ {l : List Char},
    (∀ c ∈ l, goodChar c = true) → chainNoWS l = true → collapseWS l = l := by
  intro l
  induction l using collapseWS.induct with
  | case1 => intro _ _; rfl
  | case2 d hs =>
    intro hall _
    simp only [collapseWS]
    rw [if_pos hs]
    have : d = ' ' := good_space_eq (hall d (List.mem_singleton.mpr rfl)) hs
    rw [this]
  | case3 d hs =>
    intro _ _
    simp only [collapseWS]
    rw [if_neg hs]
  | case4 a b rest hsa hsb ih =>
    intro _ hch
    exfalso
    simp only [chainNoWS, Bool.and_eq_true, Bool.not_eq_true', Bool.and_eq_false_iff] at hch
    rcases hch.1 with h | h
    · rw [hsa] at h; cases h
    · rw [hsb] at h; cases h
  | case5 a b rest hsa hsb ih =>
    intro hall hch
    simp only [collapseWS]
    rw [if_pos hsa, if_neg hsb]
    have ha : a = ' ' := good_space_eq (hall a (List.mem_cons_self _ _)) hsa
    rw [ih (fun c hc => hall c (List.mem_cons_of_mem _ hc)) (chainNoWS_cons_tail hch), ha]
  | case6 a b rest hsa ih =>
    intro hall hch
    simp only [collapseWS]
    rw [if_neg hsa]
    rw [ih (fun c hc => hall c (List.mem_cons_of_mem _ hc)) (chainNoWS_cons_tail hch)]

theorem scrub_all_keep {c : Char} {l : List Char} (h : c ∈ scrub l) :
    keepChar c = true := by
  simp only [scrub, List.mem_map] at h
  obtain ⟨x, _, hx⟩ := h
  by_cases hk : keepChar x = true
  · rw [if_pos hk] at hx; exact hx ▸ hk
  · rw [if_neg hk] at hx
    subst hx
    decide

theorem scrub_eq_self {l : List Char} (hall : ∀ c ∈ l, goodChar c = true) :
    scrub l = l := by
  unfold scrub
  rw [List.map_congr_left (fun a ha => by rw [if_pos (good_keep (hall a ha))])]
  exact List.map_id l

theorem normalize_text_normForm (lib : TextLib) (v : Option String) :
    normFormB (normalize_text lib v).data = true := by
  cases v with
  | none => rfl
  | some s =>
    simp only [normalize_text]
    set u := (lib.nfkd (lib.lower (pyStrip s.data))).filter
      (fun c => ! lib.isCombining c) with hu
    have hall : ∀ c ∈ pyStrip (collapseWS (scrub u)), goodChar c = true := by
      intro c hc
      have hc2 := pyStrip_subset hc
      rcases collapseWS_mem hc2 with rfl | ⟨hmem, hns⟩
      · decide
      · simp only [goodChar, Bool.or_eq_true]
        exact Or.inl (keep_not_space_alnum (scrub_all_keep hmem) hns)
    obtain ⟨hch, hh, hl⟩ := pyStrip_normParts (collapseWS_chain (scrub u))
    simp only [normFormB, Bool.and_eq_true, List.all_eq_true]
    exact ⟨⟨⟨fun c hc => hall c hc, hch⟩, hh⟩, hl⟩

theorem normalize_text_fix (lib : TextLib)
    (hlow : ∀ l, (∀ c ∈ l, goodChar c = true) → lib.lower l = l)
    (hnfkd : ∀ l, (∀ c ∈ l, goodChar c = true) → lib.nfkd l = l)
    (hcomb : ∀ c, goodChar c = true → lib.isCombining c = false)
    {s : String} (h : normFormB s.data = true) :
    normalize_text lib (some s) = s := by
  simp only [normFormB, Bool.and_eq_true, List.all_eq_true] at h
  obtain ⟨⟨⟨hall, hch⟩, hh⟩, hl⟩ := h
  have hstrip : pyStrip s.data = s.data := pyStrip_eq_self hh hl
  have hfilter : (lib.nfkd (lib.lower (pyStrip s.data))).filter
      (fun c => ! lib.isCombining c) = s.data := by
    rw [hstrip, hlow _ hall, hnfkd _ hall]
    apply List.filter_eq_self.mpr
    intro c hc
    rw [hcomb c (hall c hc)]
    rfl
  simp only [normalize_text, hfilter]
  rw [scrub_eq_self hall, collapseWS_eq_self hall hch, hstrip]

/-! ## Lemmas: best-candidate fold -/

theorem scoreMax_cons {α : Type} (score : α → ℚ) (d : α) (l : List α) (b : ℚ) :
    scoreMax score (d :: l) b = scoreMax score l (max b (score d)) := rfl

theorem le_scoreMax {α : Type} (score : α → ℚ) : ∀ (l : List α) (b : ℚ),
    b ≤ scoreMax score l b := by
  intro l
  induction l with
  | nil => intro b; exact le_refl b
  | cons d l ih =>
    intro b
    rw [scoreMax_cons]
    exact le_trans (le_max_left _ _) (ih _)

theorem mem_le_scoreMax {α : Type} (score : α → ℚ) {d : α} : ∀ {l : List α},
    d ∈ l → ∀ (b : ℚ), score d ≤ scoreMax score l b := by
  intro l
  induction l with
  | nil => intro h; cases h
  | cons x l ih =>
    intro h b
    rw [scoreMax_cons]
    rcases List.mem_cons.mp h with rfl | h2
    · exact le_trans (le_max_right _ _) (le_scoreMax _ _ _)
    · exact ih h2 _

theorem scoreMax_eq_or_mem {α : Type} (score : α → ℚ) : ∀ (l : List α) (b : ℚ),
    scoreMax score l b = b ∨ ∃ d ∈ l, scoreMax score l b = score d := by
  intro l
  induction l with
  | nil => intro b; exact Or.inl rfl
  | cons x l ih =>
    intro b
    rw [scoreMax_cons]
    rcases ih (max b (score x)) with h | ⟨d, hd, heq⟩
    · rcases max_choice b (score x) with hm | hm
      · exact Or.inl (h.trans hm)
      · exact Or.inr ⟨x, List.mem_cons_self _ _, h.trans hm⟩
    · exact Or.inr ⟨d, List.mem_cons_of_mem _ hd, heq⟩

theorem bestFold_snd {α : Type} (score : α → ℚ) : ∀ (l : List α) (bm : Option α) (bs : ℚ),
    (bestFold score l (bm, bs)).2 = scoreMax score l bs := by
  intro l
  induction l with
  | nil => intro bm bs; rfl
  | cons d l ih =>
    intro bm bs
    rw [scoreMax_cons]
    by_cases h : bs < score d
    · have : bestFold score (d :: l) (bm, bs) = bestFold score l (some d, score d) := by
        simp [bestFold, List.foldl_cons, h]
      rw [this, ih, max_eq_right (le_of_lt h)]
    · have : bestFold score (d :: l) (bm, bs) = bestFold score l (bm, bs) := by
        simp [bestFold, List.foldl_cons, h]
      rw [this, ih, max_eq_left (le_of_not_lt h)]

theorem bestFold_stay {α : Type} (score : α → ℚ) : ∀ {l : List α} {bm : Option α} {bs : ℚ},
    (∀ d ∈ l, score d ≤ bs) → bestFold score l (bm, bs) = (bm, bs) := by
  intro l
  induction l with
  | nil => intro bm bs _; rfl
  | cons d l ih =>
    intro bm bs hall
    have hd : ¬ bs < score d := not_lt_of_le (hall d (List.mem_cons_self _ _))
    have : bestFold score (d :: l) (bm, bs) = bestFold score l (bm, bs) := by
      simp [bestFold, List.foldl_cons, hd]
    rw [this]
    exact ih (fun x hx => hall x (List.mem_cons_of_mem _ hx))

theorem bestFold_fst {α : Type} (score : α → ℚ) : ∀ (l : List α) (bm : Option α) (bs : ℚ),
    bs < scoreMax score l bs →
    (bestFold score l (bm, bs)).1 =
      l.find? (fun d => decide (scoreMax score l bs ≤ score d)) := by
  intro l
  induction l with
  | nil =>
    intro bm bs h
    exact absurd h (lt_irrefl _)
  | cons d l ih =>
    intro bm bs h
    by_cases hlt : bs < score d
    · have hstep : bestFold score (d :: l) (bm, bs) = bestFold score l (some d, score d) := by
        simp [bestFold, List.foldl_cons, hlt]
      have hM : scoreMax score (d :: l) bs = scoreMax score l (score d) := by
        rw [scoreMax_cons, max_eq_right (le_of_lt hlt)]
      by_cases hfin : scoreMax score l (score d) ≤ score d
      · have hstay : bestFold score l (some d, score d) = (some d, score d) :=
          bestFold_stay score (fun x hx => le_trans (mem_le_scoreMax score hx _) hfin)
        rw [hstep, hstay, hM]
        have hp : decide (scoreMax score l (score d) ≤ score d) = true := by
          simp [hfin]
        simp [List.find?_cons, hp]
      · have hlt2 : score d < scoreMax score l (score d) := lt_of_not_le hfin
        rw [hstep, ih _ _ hlt2, hM]
        have hp : decide (scoreMax score (d :: l) bs ≤ score d) = false := by
          rw [hM]
          simp [not_le_of_lt hlt2]
        rw [hM] at hp
        simp [List.find?_cons, hp]
    · have hstep : bestFold score (d :: l) (bm, bs) = bestFold score l (bm, bs) := by
        simp [bestFold, List.foldl_cons, hlt]
      have hM : scoreMax score (d :: l) bs = scoreMax score l bs := by
        rw [scoreMax_cons, max_eq_left (le_of_not_lt hlt)]
      have hlt3 : bs < scoreMax score l bs := by rw [hM] at h; exact h
      rw [hstep, ih _ _ hlt3, hM]
      have hp : decide (scoreMax score l bs ≤ score d) = false := by
        have : score d < scoreMax score l bs := lt_of_le_of_lt (le_of_not_lt hlt) hlt3
        simp [not_le_of_lt this]
      simp [List.find?_cons, hp]

/-! ## Claim theorems -/

/-- C5: `normalize_text` is idempotent — for every input string `x`,
`normalize_text (normalize_text x) = normalize_text x`, so re-normalizing an
already-normalized string is a no-op — and non-string input yields the empty
string.  The hypotheses record the Unicode facts that lower-casing, NFKD
decomposition and combining-mark removal leave fully-normalized strings
(lower-case ASCII alphanumerics separated by single spaces) unchanged. -/
theorem normalize_text_idempotent (lib : TextLib)
    (hlow : ∀ l, (∀ c ∈ l, goodChar c = true) → lib.lower l = l)
    (hnfkd : ∀ l, (∀ c ∈ l, goodChar c = true) → lib.nfkd l = l)
    (hcomb : ∀ c, goodChar c = true → lib.isCombining c = false) :
    (∀ v : Option String,
        normalize_text lib (some (normalize_text lib v)) = normalize_text lib v) ∧
      normalize_text lib none = "" := by
  refine ⟨fun v => ?_, rfl⟩
  exact normalize_text_fix lib hlow hnfkd hcomb (normalize_text_normForm lib v)

/-- Witness for C5 at a concrete library and concrete inputs. -/
theorem normalize_text_idempotent_witness :
    normalize_text textLibA (some (normalize_text textLibA (some "  a!  bc  "))) =
      normalize_text textLibA (some "  a!  bc  ") :=
  (normalize_text_idempotent textLibA (fun _ _ => rfl) (fun _ _ => rfl)
    (fun _ _ => rfl)).1 (some "  a!  bc  ")

/-- C1: the verdict of `process_lead` follows the fixed priority order: a
contact match gives `(duplicate, contact_duplicate, follow-up true)`
regardless of the deal/directory results; else a deal match gives
`(duplicate, deal_exists, follow-up false)`; else a directory match gives
`(duplicate, alohacamp_exists, follow-up false)`; else
`(unique, new_lead, follow-up true)`.  In particular `status = unique` holds
exactly when no category matched, and then the reason is `new_lead` with
follow-up true. -/
theorem process_lead_verdict (lib : TextLib) (plib : PhoneLib) (env : RemoteEnv)
    (lead : Lead) :
    (((process_lead lib plib env lead).1.status,
      (process_lead lib plib env lead).1.needs_deal,
      (process_lead lib plib env lead).1.reason) =
      (if (check_contact_duplicates lib plib env lead).1.found then
        ("duplicate", true, "contact_duplicate")
      else if (check_deal_duplicates lib env lead).1.found then
        ("duplicate", false, "deal_exists")
      else if (check_alohacamp_duplicates lib env lead).1.found then
        ("duplicate", false, "alohacamp_exists")
      else ("unique", true, "new_lead"))) ∧
    ((process_lead lib plib env lead).1.status = "unique" ↔
      (check_contact_duplicates lib plib env lead).1.found = false ∧
      (check_deal_duplicates lib env lead).1.found = false ∧
      (check_alohacamp_duplicates lib env lead).1.found = false) ∧
    ((process_lead lib plib env lead).1.status = "unique" →
      (process_lead lib plib env lead).1.reason = "new_lead" ∧
      (process_lead lib plib env lead).1.needs_deal = true) := by
  by_cases h1 : (check_contact_duplicates lib plib env lead).1.found <;>
    by_cases h2 : (check_deal_duplicates lib env lead).1.found <;>
      by_cases h3 : (check_alohacamp_duplicates lib env lead).1.found <;>
        simp [process_lead, h1, h2, h3]

/-- Witness for C1: with no remote data every category misses and the verdict
is `unique / new_lead / follow-up`. -/
theorem process_lead_verdict_witness :
    (process_lead textLibA phoneLibA envEmpty leadB).1.status = "unique" ∧
    (process_lead textLibA phoneLibA envEmpty leadB).1.reason = "new_lead" ∧
    (process_lead textLibA phoneLibA envEmpty leadB).1.needs_deal = true := by
  have h := (process_lead_verdict textLibA phoneLibA envEmpty leadB).2.2
  have hs : (process_lead textLibA phoneLibA envEmpty leadB).1.status = "unique" := rfl
  exact ⟨hs, (h hs).1, (h hs).2⟩

/-- C7: the persisted record carries the linkage fields of every category
that found a match — the contact, deal and directory linkage groups are
present exactly when the respective check found a match, with that check's
fields, independently of which branch decided the reason — and the
directory-found state is always written explicitly as the directory check's
found flag. -/
theorem process_lead_linkage (lib : TextLib) (plib : PhoneLib) (env : RemoteEnv)
    (lead : Lead) :
    (process_lead lib plib env lead).1.contact =
      (if (check_contact_duplicates lib plib env lead).1.found then
        some ⟨(check_contact_duplicates lib plib env lead).1.contact_id,
              (check_contact_duplicates lib plib env lead).1.contact_email,
              (check_contact_duplicates lib plib env lead).1.contact_phone,
              (check_contact_duplicates lib plib env lead).1.contact_name,
              (check_contact_duplicates lib plib env lead).1.match_type⟩
      else none) ∧
    (process_lead lib plib env lead).1.deal =
      (if (check_deal_duplicates lib env lead).1.found then
        some ⟨(check_deal_duplicates lib env lead).1.deal_id,
              (check_deal_duplicates lib env lead).1.deal_name,
              (check_deal_duplicates lib env lead).1.deal_score⟩
      else none) ∧
    (process_lead lib plib env lead).1.aloha =
      (if (check_alohacamp_duplicates lib env lead).1.found then
        some ⟨(check_alohacamp_duplicates lib env lead).1.match_id,
              (check_alohacamp_duplicates lib env lead).1.match_name,
              (check_alohacamp_duplicates lib env lead).1.score⟩
      else none) ∧
    (process_lead lib plib env lead).1.alohacamp_exists =
      (check_alohacamp_duplicates lib env lead).1.found := by
  refine ⟨rfl, rfl, rfl, rfl⟩

/-- C8: with no directory adapter configured the directory category reports
not-found without issuing any remote call, and likewise when the lead's
property name is empty; the absence of the adapter is not an error. -/
theorem alohacamp_optional (lib : TextLib) (env : RemoteEnv) (lead : Lead) :
    (env.airtableProps = none →
      check_alohacamp_duplicates lib env lead = ({ found := false }, [])) ∧
    (lead.property_name = "" →
      check_alohacamp_duplicates lib env lead = ({ found := false }, [])) := by
  constructor
  · intro h
    simp [check_alohacamp_duplicates, h]
  · intro h
    cases henv : env.airtableProps with
    | none => simp [check_alohacamp_duplicates, henv]
    | some f => simp [check_alohacamp_duplicates, henv, h]

/-- Witness for C8: a checker without an Airtable client yields not-found and
no remote call. -/
theorem alohacamp_optional_witness :
    check_alohacamp_duplicates textLibA envEmpty leadA = ({ found := false }, []) :=
  (alohacamp_optional textLibA envEmpty leadA).1 rfl

/-- C10: the exact-email adapter treats the literal string `"nan"` exactly
like an empty email — empty candidate list, no remote query — so a lead whose
email is `"nan"` goes through the contact cascade exactly as one with an
empty email and can only match by the phone or name strategies. -/
theorem nan_email_like_empty (lib : TextLib) (plib : PhoneLib) (env : RemoteEnv)
    (lead : Lead) :
    search_contacts_by_email env "nan" = ([], []) ∧
    search_contacts_by_email env "" = ([], []) ∧
    check_contact_duplicates lib plib env { lead with email := "nan" } =
      check_contact_duplicates lib plib env { lead with email := "" } := by
  refine ⟨rfl, rfl, rfl⟩

/-- C4: `normalize_phone` returns absent for non-string input and for blank
input; a parse failure (a raised exception in the model: `parse = none`)
yields absent rather than an error; and it returns a formatted value exactly
when the input is non-blank and the parsed number is both possible and valid,
the default region being the upper-cased non-blank country hint. -/
theorem normalize_phone_spec (plib : PhoneLib) (country : Option String) :
    (normalize_phone plib none country = none) ∧
    (∀ s : String, pyStripStr s = "" →
      normalize_phone plib (some s) country = none) ∧
    (∀ s : String, plib.parse (pyStripStr s) (phoneDefaultRegion plib country) = none →
      normalize_phone plib (some s) country = none) ∧
    (∀ (s out : String),
      normalize_phone plib (some s) country = some out ↔
        (pyStripStr s ≠ "" ∧ ∃ num,
          plib.parse (pyStripStr s) (phoneDefaultRegion plib country) = some num ∧
          plib.is_possible num = true ∧ plib.is_valid num = true ∧
          out = plib.formatE164 num)) := by
  refine ⟨rfl, ?_, ?_, ?_⟩
  · intro s h
    simp [normalize_phone, h]
  · intro s h
    by_cases hs : pyStripStr s = ""
    · simp [normalize_phone, hs]
    · simp [normalize_phone, hs, h]
  · intro s out
    constructor
    · intro h
      by_cases hs : pyStripStr s = ""
      · simp [normalize_phone, hs] at h
      · refine ⟨hs, ?_⟩
        cases hp : plib.parse (pyStripStr s) (phoneDefaultRegion plib country) with
        | none => simp [normalize_phone, hs, hp] at h
        | some num =>
          refine ⟨num, rfl, ?_⟩
          simp only [normalize_phone, hs, hp] at h
          rw [if_neg not_false] at h
          by_cases hv : (plib.is_possible num && plib.is_valid num) = true
          · rw [if_pos hv] at h
            simp only [Option.some.injEq] at h
            simp only [Bool.and_eq_true] at hv
            exact ⟨hv.1, hv.2, h.symm⟩
          · rw [if_neg hv] at h
            cases h
    · rintro ⟨hs, num, hp, hposs, hval, hout⟩
      simp only [normalize_phone, hs, hp]
      rw [if_neg not_false, if_pos (by simp [hposs, hval]), hout]

/-- Witness for C4: a blank string and an unparseable string both normalize
to absent under a concrete parser. -/
theorem normalize_phone_spec_witness :
    normalize_phone phoneLibA (some "   ") none = none ∧
    normalize_phone phoneLibA (some "garbage") none = none :=
  ⟨(normalize_phone_spec phoneLibA none).2.1 "   " (by decide),
   (normalize_phone_spec phoneLibA none).2.2.1 "garbage" rfl⟩

/-- Fold identity behind `process_batch`: the accumulated pair counts the
leads whose processing succeeded with a confirmed update and the leads whose
processing raised. -/
theorem lead_step_fold (runLead : Lead → Except String UpdateData)
    (updateStore : Lead → UpdateData → Except String Bool) :
    ∀ (l : List Lead) (u e : Nat),
      l.foldl (lead_step runLead updateStore) (u, e) =
        (u + (l.filter (leadUpdates runLead updateStore)).length,
         e + (l.filter (leadFails runLead updateStore)).length) := by
  intro l
  induction l with
  | nil => intro u e; simp
  | cons d l ih =>
    intro u e
    rw [List.foldl_cons]
    have hstep : lead_step runLead updateStore (u, e) d =
        (if leadUpdates runLead updateStore d then u + 1 else u,
         if leadFails runLead updateStore d then e + 1 else e) := by
      cases hr : runLead d with
      | error msg => simp [lead_step, leadUpdates, leadFails, hr]
      | ok ud =>
        cases hs : updateStore d ud with
        | error msg => simp [lead_step, leadUpdates, leadFails, hr, hs]
        | ok hasData =>
          cases hasData <;> simp [lead_step, leadUpdates, leadFails, hr, hs]
    rw [hstep, ih, List.filter_cons, List.filter_cons]
    cases hu : leadUpdates runLead updateStore d <;>
      cases hf : leadFails runLead updateStore d <;>
        simp [Prod.mk.injEq] <;> omega

/-- C9: a failure while processing or writing any single lead is caught and
counted, and does not abort the batch — every fetched lead is visited, and
the summary reports the number attempted, the number successfully updated,
and the number of per-lead errors; an empty fetch is the only batch-fatal
case. -/
theorem process_batch_counts (leads : List Lead)
    (runLead : Lead → Except String UpdateData)
    (updateStore : Lead → UpdateData → Except String Bool) :
    (leads ≠ [] →
      process_batch leads runLead updateStore =
        Except.ok ⟨leads.length,
          (leads.filter (leadUpdates runLead updateStore)).length,
          (leads.filter (leadFails runLead updateStore)).length⟩) ∧
    process_batch [] runLead updateStore =
      Except.error "No leads found to process" := by
  constructor
  · intro hne
    cases leads with
    | nil => exact absurd rfl hne
    | cons d l =>
      simp only [process_batch]
      rw [lead_step_fold]
      simp
  · rfl

/-- Witness for C9: a two-lead batch where the first lead's processing raises
still processes the second lead and reports one update and one error. -/
theorem process_batch_counts_witness :
    ([leadA, leadB] : List Lead) ≠ [] ∧
    process_batch [leadA, leadB] runLeadA updateStoreA =
      Except.ok ⟨2, 1, 1⟩ := by
  refine ⟨by decide, ?_⟩
  have h := (process_batch_counts [leadA, leadB] runLeadA updateStoreA).1 (by decide)
  exact h.trans (congrArg Except.ok (by decide))

/-! ## Lemmas: contact cascade stages -/

theorem email_calls (env : RemoteEnv) (e : String) :
    (search_contacts_by_email env e).2 = [] ∨
    (search_contacts_by_email env e).2 = [RemoteCall.email e] := by
  by_cases h1 : e = ""
  · exact Or.inl (by simp [search_contacts_by_email, h1])
  · by_cases h2 : e = "nan"
    · exact Or.inl (by simp [search_contacts_by_email, h1, h2])
    · exact Or.inr (by simp [search_contacts_by_email, h1, h2])

theorem phone_calls (env : RemoteEnv) (p : String) :
    (search_contacts_by_phone env p).2 = [] ∨
    (search_contacts_by_phone env p).2 = [RemoteCall.phone p] := by
  by_cases h : p = ""
  · exact Or.inl (by simp [search_contacts_by_phone, h])
  · exact Or.inr (by simp [search_contacts_by_phone, h])

theorem name_calls (env : RemoteEnv) (f l : String) :
    (search_contacts_by_name env f l).2 = [] ∨
    (search_contacts_by_name env f l).2 = [RemoteCall.name f l] := by
  by_cases hf : f = ""
  · by_cases hl : l = ""
    · exact Or.inl (by simp [search_contacts_by_name, hf, hl])
    · exact Or.inr (by simp [search_contacts_by_name, hf, hl])
  · exact Or.inr (by simp [search_contacts_by_name, hf])

theorem contactStage2_email (plib : PhoneLib) {env : RemoteEnv} {lead : Lead}
    {c : Contact} {cs : List Contact}
    (h : (search_contacts_by_email env lead.email).1 = c :: cs) :
    contactStage2 plib env lead =
      ((search_contacts_by_email env lead.email).1, some "email", []) := by
  unfold contactStage2
  rw [if_pos (by simp [h])]

theorem contactStage2_phone {plib : PhoneLib} {env : RemoteEnv} {lead : Lead}
    {p : String}
    (h1 : (search_contacts_by_email env lead.email).1 = [])
    (h2 : normalize_phone plib (some lead.phone) (some lead.country) = some p)
    (h3 : p ≠ "") :
    contactStage2 plib env lead =
      ((search_contacts_by_phone env p).1,
       if (search_contacts_by_phone env p).1 ≠ [] then some "phone" else none,
       (search_contacts_by_phone env p).2) := by
  unfold contactStage2
  rw [if_neg (by simp [h1])]
  simp only [h2]
  rw [if_pos h3]

theorem contactStage2_nophone {plib : PhoneLib} {env : RemoteEnv} {lead : Lead}
    (h1 : (search_contacts_by_email env lead.email).1 = [])
    (h2 : normalize_phone plib (some lead.phone) (some lead.country) = none) :
    contactStage2 plib env lead = ([], none, []) := by
  unfold contactStage2
  rw [if_neg (by simp [h1])]
  simp only [h2]

theorem contactStage2_calls_shape (plib : PhoneLib) (env : RemoteEnv) (lead : Lead) :
    (contactStage2 plib env lead).2.2 = [] ∨
    ∃ p, (contactStage2 plib env lead).2.2 = [RemoteCall.phone p] ∧
      normalize_phone plib (some lead.phone) (some lead.country) = some p := by
  unfold contactStage2
  by_cases hr : (search_contacts_by_email env lead.email).1 ≠ []
  · rw [if_pos hr]
    exact Or.inl rfl
  · rw [if_neg hr]
    cases hp : normalize_phone plib (some lead.phone) (some lead.country) with
    | none => exact Or.inl rfl
    | some p =>
      dsimp only
      by_cases hb : p = ""
      · rw [if_neg (by simp [hb])]
        exact Or.inl rfl
      · rw [if_pos hb]
        rcases phone_calls env p with h | h
        · exact Or.inl h
        · exact Or.inr ⟨p, h, rfl⟩

theorem contactStage3_found {lib : TextLib} {env : RemoteEnv} {lead : Lead}
    {st : List Contact × Option String × List RemoteCall} {c : Contact}
    (h1 : st.1 = []) (h2 : lead.first_name ≠ "" ∨ lead.last_name ≠ "")
    (h3 : (search_contacts_by_name env lead.first_name lead.last_name).1.find?
      (nameAccept lib lead.first_name lead.last_name) = some c) :
    contactStage3 lib env lead st =
      ([c], some "name",
       st.2.2 ++ (search_contacts_by_name env lead.first_name lead.last_name).2) := by
  unfold contactStage3
  rw [if_pos ⟨h1, h2⟩]
  simp only [h3]

theorem contactStage3_notfound {lib : TextLib} {env : RemoteEnv} {lead : Lead}
    {st : List Contact × Option String × List RemoteCall}
    (h1 : st.1 = []) (h2 : lead.first_name ≠ "" ∨ lead.last_name ≠ "")
    (h3 : (search_contacts_by_name env lead.first_name lead.last_name).1.find?
      (nameAccept lib lead.first_name lead.last_name) = none) :
    contactStage3 lib env lead st =
      ([], st.2.1,
       st.2.2 ++ (search_contacts_by_name env lead.first_name lead.last_name).2) := by
  unfold contactStage3
  rw [if_pos ⟨h1, h2⟩]
  simp only [h3]

theorem contactStage3_skip_nonempty {lib : TextLib} {env : RemoteEnv} {lead : Lead}
    {st : List Contact × Option String × List RemoteCall} (h : st.1 ≠ []) :
    contactStage3 lib env lead st = st := by
  unfold contactStage3
  rw [if_neg (fun hc => h hc.1)]

theorem contactStage3_skip_nonames {lib : TextLib} {env : RemoteEnv} {lead : Lead}
    {st : List Contact × Option String × List RemoteCall}
    (hf : lead.first_name = "") (hl : lead.last_name = "") :
    contactStage3 lib env lead st = st := by
  unfold contactStage3
  rw [if_neg (by simp [hf, hl])]

theorem check_contact_eq_found {lib : TextLib} {plib : PhoneLib} {env : RemoteEnv}
    {lead : Lead} {c : Contact} {cs : List Contact} {mt : Option String}
    {k : List RemoteCall}
    (h : contactStage3 lib env lead (contactStage2 plib env lead) = (c :: cs, mt, k)) :
    check_contact_duplicates lib plib env lead =
      ({ found := true, contact_id := c.id, contact_email := c.email,
         contact_phone := c.phone,
         contact_name := pyStripStr (c.firstname ++ " " ++ c.lastname),
         match_type := mt },
       (search_contacts_by_email env lead.email).2 ++ k) := by
  unfold check_contact_duplicates
  simp only [h]

theorem check_contact_eq_notfound {lib : TextLib} {plib : PhoneLib} {env : RemoteEnv}
    {lead : Lead} {mt : Option String} {k : List RemoteCall}
    (h : contactStage3 lib env lead (contactStage2 plib env lead) = ([], mt, k)) :
    check_contact_duplicates lib plib env lead =
      ({ found := false }, (search_contacts_by_email env lead.email).2 ++ k) := by
  unfold check_contact_duplicates
  simp only [h]

/-- C2: the contact category is a short-circuiting cascade.  A non-empty
exact-email result is taken immediately (first candidate, strategy `email`,
no further remote calls); the phone lookup runs only when the email lookup
was empty and normalization succeeded, its first result matched with strategy
`phone`; a failed normalization never issues a phone query; the fuzzy-name
step runs only when both earlier strategies produced nothing and some name
part is non-empty, accepting the first candidate in search order whose
first-name score is at least 80 or whose last-name score is at least 80 (no
candidate over threshold yields not-found, and no name query is issued when
both name parts are blank); each per-part score is `0` unless both sides of
that part are non-empty; and the OR threshold accepts a candidate scoring
79/81. -/
theorem check_contact_cascade (lib : TextLib) (plib : PhoneLib) (env : RemoteEnv)
    (lead : Lead) :
    (∀ c cs, (search_contacts_by_email env lead.email).1 = c :: cs →
      check_contact_duplicates lib plib env lead =
        ({ found := true, contact_id := c.id, contact_email := c.email,
           contact_phone := c.phone,
           contact_name := pyStripStr (c.firstname ++ " " ++ c.lastname),
           match_type := some "email" },
         (search_contacts_by_email env lead.email).2)) ∧
    (∀ p c cs, (search_contacts_by_email env lead.email).1 = [] →
      normalize_phone plib (some lead.phone) (some lead.country) = some p →
      p ≠ "" →
      (search_contacts_by_phone env p).1 = c :: cs →
      check_contact_duplicates lib plib env lead =
        ({ found := true, contact_id := c.id, contact_email := c.email,
           contact_phone := c.phone,
           contact_name := pyStripStr (c.firstname ++ " " ++ c.lastname),
           match_type := some "phone" },
         (search_contacts_by_email env lead.email).2 ++
           (search_contacts_by_phone env p).2)) ∧
    (normalize_phone plib (some lead.phone) (some lead.country) = none →
      ∀ p0, RemoteCall.phone p0 ∉ (check_contact_duplicates lib plib env lead).2) ∧
    (∀ c, (contactStage2 plib env lead).1 = [] →
      (lead.first_name ≠ "" ∨ lead.last_name ≠ "") →
      (search_contacts_by_name env lead.first_name lead.last_name).1.find?
        (nameAccept lib lead.first_name lead.last_name) = some c →
      check_contact_duplicates lib plib env lead =
        ({ found := true, contact_id := c.id, contact_email := c.email,
           contact_phone := c.phone,
           contact_name := pyStripStr (c.firstname ++ " " ++ c.lastname),
           match_type := some "name" },
         (search_contacts_by_email env lead.email).2 ++
           ((contactStage2 plib env lead).2.2 ++
             (search_contacts_by_name env lead.first_name lead.last_name).2))) ∧
    ((contactStage2 plib env lead).1 = [] →
      (lead.first_name ≠ "" ∨ lead.last_name ≠ "") →
      (search_contacts_by_name env lead.first_name lead.last_name).1.find?
        (nameAccept lib lead.first_name lead.last_name) = none →
      (check_contact_duplicates lib plib env lead).1 = { found := false }) ∧
    (lead.first_name = "" → lead.last_name = "" →
      ∀ f0 l0, RemoteCall.name f0 l0 ∉ (check_contact_duplicates lib plib env lead).2) ∧
    (∀ c : Contact, lead.first_name = "" ∨ c.firstname = "" →
      (nameScores lib lead.first_name lead.last_name c).1 = 0) ∧
    (∀ c : Contact, lead.last_name = "" ∨ c.lastname = "" →
      (nameScores lib lead.first_name lead.last_name c).2 = 0) ∧
    (∀ c : Contact, nameAccept lib lead.first_name lead.last_name c =
      acceptScorePair (nameScores lib lead.first_name lead.last_name c).1
        (nameScores lib lead.first_name lead.last_name c).2) ∧
    (∀ fs ls : ℚ, acceptScorePair fs ls = true ↔ (80 ≤ fs ∨ 80 ≤ ls)) ∧
    acceptScorePair 79 81 = true := by
  have ha : ∀ c cs, (search_contacts_by_email env lead.email).1 = c :: cs →
      check_contact_duplicates lib plib env lead =
        ({ found := true, contact_id := c.id, contact_email := c.email,
           contact_phone := c.phone,
           contact_name := pyStripStr (c.firstname ++ " " ++ c.lastname),
           match_type := some "email" },
         (search_contacts_by_email env lead.email).2) := by
    intro c cs h
    have h2 := contactStage2_email plib h
    have h3 : contactStage3 lib env lead (contactStage2 plib env lead) =
        (c :: cs, some "email", []) := by
      rw [h2, contactStage3_skip_nonempty (by simp [h])]
      rw [h]
    have h4 := check_contact_eq_found h3
    rw [h4, List.append_nil]
  refine ⟨ha, ?_, ?_, ?_, ?_, ?_, ?_, ?_, ?_, ?_, ?_⟩
  · intro p c cs h1 hp hpne h2
    have hs2 : contactStage2 plib env lead =
        (c :: cs, some "phone", (search_contacts_by_phone env p).2) := by
      rw [contactStage2_phone h1 hp hpne, h2]
      simp
    have h3 : contactStage3 lib env lead (contactStage2 plib env lead) =
        (c :: cs, some "phone", (search_contacts_by_phone env p).2) := by
      rw [hs2, contactStage3_skip_nonempty (by simp)]
    exact check_contact_eq_found h3
  · intro hnorm p0 hmem
    cases hr1 : (search_contacts_by_email env lead.email).1 with
    | cons c cs =>
      rw [ha c cs hr1] at hmem
      rcases email_calls env lead.email with he | he <;> rw [he] at hmem <;>
        simp at hmem
    | nil =>
      have h2 := contactStage2_nophone hr1 hnorm
      by_cases hnm : lead.first_name ≠ "" ∨ lead.last_name ≠ ""
      · cases hfind : (search_contacts_by_name env lead.first_name lead.last_name).1.find?
            (nameAccept lib lead.first_name lead.last_name) with
        | some c =>
          have h3 : contactStage3 lib env lead (contactStage2 plib env lead) =
              ([c], some "name",
               [] ++ (search_contacts_by_name env lead.first_name lead.last_name).2) := by
            rw [h2]
            exact contactStage3_found rfl hnm hfind
          rw [check_contact_eq_found h3] at hmem
          rcases email_calls env lead.email with he | he <;>
            rcases name_calls env lead.first_name lead.last_name with hn | hn <;>
              rw [he, hn] at hmem <;> simp at hmem
        | none =>
          have h3 : contactStage3 lib env lead (contactStage2 plib env lead) =
              ([], none,
               [] ++ (search_contacts_by_name env lead.first_name lead.last_name).2) := by
            rw [h2]
            exact contactStage3_notfound rfl hnm hfind
          rw [check_contact_eq_notfound h3] at hmem
          rcases email_calls env lead.email with he | he <;>
            rcases name_calls env lead.first_name lead.last_name with hn | hn <;>
              rw [he, hn] at hmem <;> simp at hmem
      · push_neg at hnm
        have h3 : contactStage3 lib env lead (contactStage2 plib env lead) =
            ([], none, []) := by
          rw [h2]
          exact contactStage3_skip_nonames hnm.1 hnm.2
        rw [check_contact_eq_notfound h3] at hmem
        rcases email_calls env lead.email with he | he <;> rw [he] at hmem <;>
          simp at hmem
  · intro c hst hnm hfind
    have h3 := contactStage3_found hst hnm hfind
    exact check_contact_eq_found h3
  · intro hst hnm hfind
    have h3 := contactStage3_notfound hst hnm hfind
    rw [check_contact_eq_notfound h3]
  · intro hf hl f0 l0 hmem
    cases hst1 : (contactStage2 plib env lead).1 with
    | cons c cs =>
      have h3 : contactStage3 lib env lead (contactStage2 plib env lead) =
          (c :: cs, (contactStage2 plib env lead).2.1,
           (contactStage2 plib env lead).2.2) := by
        rw [contactStage3_skip_nonames hf hl, ← hst1]
      rw [check_contact_eq_found h3] at hmem
      rcases email_calls env lead.email with he | he <;>
        rcases contactStage2_calls_shape plib env lead with hp | ⟨p, hp, _⟩ <;>
          rw [he, hp] at hmem <;> simp at hmem
    | nil =>
      have h3 : contactStage3 lib env lead (contactStage2 plib env lead) =
          ([], (contactStage2 plib env lead).2.1,
           (contactStage2 plib env lead).2.2) := by
        rw [contactStage3_skip_nonames hf hl, ← hst1]
      rw [check_contact_eq_notfound h3] at hmem
      rcases email_calls env lead.email with he | he <;>
        rcases contactStage2_calls_shape plib env lead with hp | ⟨p, hp, _⟩ <;>
          rw [he, hp] at hmem <;> simp at hmem
  · intro c h
    rcases h with h | h <;> simp [nameScores, h]
  · intro c h
    rcases h with h | h <;> simp [nameScores, h]
  · intro c
    rfl
  · intro fs ls
    simp [acceptScorePair]
  · have h81 : (80 : ℚ) ≤ 81 := by norm_num
    unfold acceptScorePair
    rw [decide_eq_true h81, Bool.or_true]

/-- Witness for C2: with a concrete oracle returning one contact for the
email query, the cascade short-circuits at the email strategy. -/
theorem check_contact_cascade_witness :
    check_contact_duplicates textLibA phoneLibA envA leadA =
      ({ found := true, contact_id := "c1", contact_email := "ann@x.com",
         contact_phone := "+48100200300", contact_name := "Ann Lee",
         match_type := some "email" }, [RemoteCall.email "a@x.com"]) := by
  have h := (check_contact_cascade textLibA phoneLibA envA leadA).1 contactA []
    (by decide)
  exact h.trans (by decide)

/-! ## Lemmas: deal and directory selection -/

theorem exists_best {α : Type} (f : α → ℚ) (l : List α)
    (h : (0 : ℚ) < scoreMax f l 0) :
    ∃ e, (bestFold f l (none, 0)).1 = some e ∧
      l.find? (fun x => decide (scoreMax f l 0 ≤ f x)) = some e := by
  have hfst := bestFold_fst f l none 0 h
  have hex : ∃ x, x ∈ l ∧ decide (scoreMax f l 0 ≤ f x) = true := by
    rcases scoreMax_eq_or_mem f l 0 with h0 | ⟨x, hx, he⟩
    · rw [h0] at h
      exact absurd h (lt_irrefl 0)
    · exact ⟨x, hx, by simp [he.le]⟩
  have hsome : (l.find? (fun x => decide (scoreMax f l 0 ≤ f x))).isSome := by
    rw [List.find?_isSome]
    obtain ⟨x, hx, hp⟩ := hex
    exact ⟨x, hx, hp⟩
  obtain ⟨e, he⟩ := Option.isSome_iff_exists.mp hsome
  exact ⟨e, by rw [hfst, he], he⟩

theorem check_deal_unfold (lib : TextLib) {env : RemoteEnv} {lead : Lead}
    {d : Deal} {ds : List Deal} (hpn : lead.property_name ≠ "")
    (hres : (search_deals_by_property_name env lead.property_name).1 = d :: ds) :
    check_deal_duplicates lib env lead =
      (match (bestFold (dealScore lib lead) (d :: ds) (none, 0)).1 with
       | some e =>
         if 70 ≤ (bestFold (dealScore lib lead) (d :: ds) (none, 0)).2 then
           ({ found := true, deal_id := e.id, deal_name := e.dealname,
              deal_score := (bestFold (dealScore lib lead) (d :: ds) (none, 0)).2 },
            (search_deals_by_property_name env lead.property_name).2)
         else ({ found := false },
            (search_deals_by_property_name env lead.property_name).2)
       | none => ({ found := false },
            (search_deals_by_property_name env lead.property_name).2)) := by
  unfold check_deal_duplicates
  rw [if_neg hpn]
  simp only [hres]
  rw [if_neg (by simp)]
  rfl

theorem check_aloha_unfold (lib : TextLib) {env : RemoteEnv} {lead : Lead}
    {f : String → List AirRecord} {r : AirRecord} {rs : List AirRecord}
    (hpn : lead.property_name ≠ "") (hat : env.airtableProps = some f)
    (hres : (search_properties f lead.property_name).1 = r :: rs) :
    check_alohacamp_duplicates lib env lead =
      (match (bestFold (airScore lib lead) (r :: rs) (none, 0)).1 with
       | some e =>
         if 70 ≤ (bestFold (airScore lib lead) (r :: rs) (none, 0)).2 then
           ({ found := true, match_id := e.id, match_name := e.propertyNameField,
              score := (bestFold (airScore lib lead) (r :: rs) (none, 0)).2 },
            (search_properties f lead.property_name).2)
         else ({ found := false }, (search_properties f lead.property_name).2)
       | none => ({ found := false }, (search_properties f lead.property_name).2)) := by
  unfold check_alohacamp_duplicates
  simp only [hat]
  rw [if_neg hpn]
  simp only [hres]
  rw [if_neg (by simp)]
  rfl

/-- C3: for the deal and directory categories on a non-empty candidate list,
the category reports found exactly when the running maximum of the
property-name scores (strict improvements only, so ties keep the first-seen
maximum) reaches the inclusive threshold 70; on a find, the selected
candidate is the first one attaining that maximum in the iteration order of
the source results, and the best score is recorded in the result. -/
theorem deal_directory_selection (lib : TextLib) (env : RemoteEnv) (lead : Lead) :
    (∀ d ds, lead.property_name ≠ "" →
      env.dealsByName lead.property_name = d :: ds →
      (((check_deal_duplicates lib env lead).1.found = true ↔
          70 ≤ scoreMax (dealScore lib lead) (d :: ds) 0) ∧
       (∀ e, (d :: ds).find? (fun x =>
            decide (scoreMax (dealScore lib lead) (d :: ds) 0 ≤ dealScore lib lead x)) =
              some e →
          70 ≤ scoreMax (dealScore lib lead) (d :: ds) 0 →
          (check_deal_duplicates lib env lead).1 =
            { found := true, deal_id := e.id, deal_name := e.dealname,
              deal_score := scoreMax (dealScore lib lead) (d :: ds) 0 }))) ∧
    (∀ (f : String → List AirRecord) r rs, lead.property_name ≠ "" →
      env.airtableProps = some f →
      f lead.property_name = r :: rs →
      (((check_alohacamp_duplicates lib env lead).1.found = true ↔
          70 ≤ scoreMax (airScore lib lead) (r :: rs) 0) ∧
       (∀ e, (r :: rs).find? (fun x =>
            decide (scoreMax (airScore lib lead) (r :: rs) 0 ≤ airScore lib lead x)) =
              some e →
          70 ≤ scoreMax (airScore lib lead) (r :: rs) 0 →
          (check_alohacamp_duplicates lib env lead).1 =
            { found := true, match_id := e.id, match_name := e.propertyNameField,
              score := scoreMax (airScore lib lead) (r :: rs) 0 }))) := by
  constructor
  · intro d ds hpn hlist
    have hres : (search_deals_by_property_name env lead.property_name).1 = d :: ds := by
      simp [search_deals_by_property_name, hpn, hlist]
    have hu := check_deal_unfold lib hpn hres
    have hsnd : (bestFold (dealScore lib lead) (d :: ds) (none, 0)).2 =
        scoreMax (dealScore lib lead) (d :: ds) 0 := bestFold_snd _ _ _ _
    by_cases h70 : 70 ≤ scoreMax (dealScore lib lead) (d :: ds) 0
    · have h0 : (0 : ℚ) < scoreMax (dealScore lib lead) (d :: ds) 0 :=
        lt_of_lt_of_le (by norm_num) h70
      obtain ⟨e, hbe, hfe⟩ := exists_best (dealScore lib lead) (d :: ds) h0
      have hchk : check_deal_duplicates lib env lead =
          ({ found := true, deal_id := e.id, deal_name := e.dealname,
             deal_score := scoreMax (dealScore lib lead) (d :: ds) 0 },
           (search_deals_by_property_name env lead.property_name).2) := by
        rw [hu]
        simp only [hbe]
        rw [hsnd, if_pos h70]
      refine ⟨?_, ?_⟩
      · rw [hchk]
        simp [h70]
      · intro e' hfind' _
        have he' : e = e' := by
          rw [hfe] at hfind'
          exact Option.some.inj hfind'
        subst he'
        rw [hchk]
    · have hnf : (check_deal_duplicates lib env lead).1 = { found := false } := by
        rw [hu]
        cases hbe : (bestFold (dealScore lib lead) (d :: ds) (none, 0)).1 with
        | none => rfl
        | some e =>
          dsimp only
          rw [hsnd, if_neg h70]
      refine ⟨?_, ?_⟩
      · rw [hnf]
        simp [h70]
      · intro e' _ h70'
        exact absurd h70' h70
  · intro f r rs hpn hat hlist
    have hres : (search_properties f lead.property_name).1 = r :: rs := by
      simp [search_properties, hpn, hlist]
    have hu := check_aloha_unfold lib hpn hat hres
    have hsnd : (bestFold (airScore lib lead) (r :: rs) (none, 0)).2 =
        scoreMax (airScore lib lead) (r :: rs) 0 := bestFold_snd _ _ _ _
    by_cases h70 : 70 ≤ scoreMax (airScore lib lead) (r :: rs) 0
    · have h0 : (0 : ℚ) < scoreMax (airScore lib lead) (r :: rs) 0 :=
        lt_of_lt_of_le (by norm_num) h70
      obtain ⟨e, hbe, hfe⟩ := exists_best (airScore lib lead) (r :: rs) h0
      have hchk : check_alohacamp_duplicates lib env lead =
          ({ found := true, match_id := e.id, match_name := e.propertyNameField,
             score := scoreMax (airScore lib lead) (r :: rs) 0 },
           (search_properties f lead.property_name).2) := by
        rw [hu]
        simp only [hbe]
        rw [hsnd, if_pos h70]
      refine ⟨?_, ?_⟩
      · rw [hchk]
        simp [h70]
      · intro e' hfind' _
        have he' : e = e' := by
          rw [hfe] at hfind'
          exact Option.some.inj hfind'
        subst he'
        rw [hchk]
    · have hnf : (check_alohacamp_duplicates lib env lead).1 = { found := false } := by
        rw [hu]
        cases hbe : (bestFold (airScore lib lead) (r :: rs) (none, 0)).1 with
        | none => rfl
        | some e =>
          dsimp only
          rw [hsnd, if_neg h70]
      refine ⟨?_, ?_⟩
      · rw [hnf]
        simp [h70]
      · intro e' _ h70'
        exact absurd h70' h70

/-- Witness for C3 at a concrete oracle with two deal candidates and one
directory candidate. -/
theorem deal_directory_selection_witness :
    ((check_deal_duplicates textLibA envA leadA).1.found = true ↔
      70 ≤ scoreMax (dealScore textLibA leadA) [dealB, dealA] 0) ∧
    ((check_alohacamp_duplicates textLibA envA leadA).1.found = true ↔
      70 ≤ scoreMax (airScore textLibA leadA) [airA] 0) :=
  ⟨((deal_directory_selection textLibA envA leadA).1 dealB [dealA]
      (by decide) rfl).1,
   ((deal_directory_selection textLibA envA leadA).2 (fun _ => [airA]) airA []
      (by decide) rfl rfl).1⟩

/-! ## Lemmas: InDel ratio -/

theorem lcs_comm : ∀ x y, lcs x y = lcs y x := by
  intro x y
  induction x, y using lcs.induct with
  | case1 y => cases y <;> simp [lcs]
  | case2 a as => simp [lcs]
  | case3 as b bs ih => simp [lcs, ih]
  | case4 a as b bs hne ih1 ih2 =>
    have hne2 : ¬ b = a := fun h => hne h.symm
    simp only [lcs]
    rw [if_neg hne, if_neg hne2, ih1, ih2, Nat.max_comm]

theorem lcs_self : ∀ x, lcs x x = x.length := by
  intro x
  induction x with
  | nil => simp [lcs]
  | cons a as ih => simp [lcs, ih]

theorem lcs_le_left : ∀ x y, lcs x y ≤ x.length := by
  intro x y
  induction x, y using lcs.induct with
  | case1 y => simp [lcs]
  | case2 a as => simp [lcs]
  | case3 as b bs ih =>
    simp only [lcs, List.length_cons, if_true]
    omega
  | case4 a as b bs hne ih1 ih2 =>
    simp only [lcs, if_neg hne, Nat.max_le]
    exact ⟨ih1, le_trans ih2 (by simp)⟩

theorem lcs_le_right (x y : List Char) : lcs x y ≤ y.length := by
  rw [lcs_comm]
  exact lcs_le_left y x

theorem ratioL_comm (a b : List Char) : ratioL a b = ratioL b a := by
  unfold ratioL
  rw [lcs_comm, Nat.add_comm a.length b.length,
    add_comm (a.length : ℚ) (b.length : ℚ)]

theorem ratioL_self (a : List Char) : ratioL a a = 100 := by
  unfold ratioL
  by_cases h : a.length + a.length = 0
  · rw [if_pos h]
  · rw [if_neg h, lcs_self]
    have hpos : (0 : ℚ) < (a.length : ℚ) + (a.length : ℚ) := by
      have h2 : 0 < a.length + a.length := Nat.pos_of_ne_zero h
      exact_mod_cast h2
    rw [div_eq_iff (ne_of_gt hpos)]
    ring

theorem ratioL_le_100 (a b : List Char) : ratioL a b ≤ 100 := by
  unfold ratioL
  by_cases h : a.length + b.length = 0
  · rw [if_pos h]
  · rw [if_neg h]
    have hpos : (0 : ℚ) < (a.length : ℚ) + (b.length : ℚ) := by
      have h2 : 0 < a.length + b.length := Nat.pos_of_ne_zero h
      exact_mod_cast h2
    rw [div_le_iff₀ hpos]
    have hle : 200 * lcs a b ≤ 100 * (a.length + b.length) := by
      have h1 := lcs_le_left a b
      have h2 := lcs_le_right a b
      omega
    calc (200 * lcs a b : ℚ) = ((200 * lcs a b : Nat) : ℚ) := by push_cast; ring
    _ ≤ ((100 * (a.length + b.length) : Nat) : ℚ) := by exact_mod_cast hle
    _ = 100 * ((a.length : ℚ) + (b.length : ℚ)) := by push_cast; ring

theorem ratioFz_comm (a b : String) : ratioFz a b = ratioFz b a :=
  ratioL_comm a.data b.data

theorem ratioFz_self (a : String) : ratioFz a a = 100 :=
  ratioL_self a.data

theorem ratioFz_le_100 (a b : String) : ratioFz a b ≤ 100 :=
  ratioL_le_100 a.data b.data

/-! ## Lemmas: partial ratio -/

theorem scoreMax_le {α : Type} (score : α → ℚ) : ∀ (l : List α) (b c : ℚ),
    b ≤ c → (∀ d ∈ l, score d ≤ c) → scoreMax score l b ≤ c := by
  intro l
  induction l with
  | nil => intro b c hb _; exact hb
  | cons d l ih =>
    intro b c hb hall
    rw [scoreMax_cons]
    exact ih _ _ (max_le hb (hall d (List.mem_cons_self _ _)))
      (fun x hx => hall x (List.mem_cons_of_mem _ hx))

theorem prImpl_eq_scoreMax (needle hay : List Char) :
    prImpl needle hay =
      scoreMax (fun w => ratioL needle w) (prWindows needle.length hay) 0 := by
  unfold prImpl scoreMax
  rw [List.foldl_map]

theorem prImpl_le_100 (needle hay : List Char) : prImpl needle hay ≤ 100 := by
  rw [prImpl_eq_scoreMax]
  exact scoreMax_le _ _ _ _ (by norm_num) (fun w _ => ratioL_le_100 _ _)

theorem self_mem_prWindows {a : List Char} (h : a ≠ []) :
    a ∈ prWindows a.length a := by
  have hpos : 0 < a.length := List.length_pos.mpr h
  unfold prWindows
  refine List.mem_map.mpr ⟨a.length - 1, List.mem_range.mpr (by omega), ?_⟩
  have hl : a.length - 1 + 1 = a.length := Nat.succ_pred_eq_of_pos hpos
  rw [hl, Nat.sub_self, min_self, List.drop_zero, List.take_length]

theorem prImpl_self {a : List Char} (h : a ≠ []) : prImpl a a = 100 := by
  rw [prImpl_eq_scoreMax]
  apply le_antisymm
  · exact scoreMax_le _ _ _ _ (by norm_num) (fun w _ => ratioL_le_100 _ _)
  · have hmem := mem_le_scoreMax (fun w => ratioL a w) (self_mem_prWindows h) 0
    rw [ratioL_self] at hmem
    exact hmem

theorem part_ratio_comm (a b : String) : part_ratio a b = part_ratio b a := by
  unfold part_ratio
  rcases lt_trichotomy a.data.length b.data.length with h | h | h
  · rw [if_pos h, if_neg (lt_asymm h), if_pos h]
  · rw [if_neg (by omega), if_neg (by omega), if_neg (by omega), if_neg (by omega),
      max_comm]
  · rw [if_neg (lt_asymm h), if_pos h, if_pos h]
  
theorem part_ratio_self {a : String} (h : a.data ≠ []) : part_ratio a a = 100 := by
  unfold part_ratio
  rw [if_neg (lt_irrefl _), if_neg (lt_irrefl _), max_self]
  exact prImpl_self h

/-! ## Lemmas: token sorting and the token-set construction -/

theorem data_eq_nil {s : String} (h : s.data = []) : s = "" := by
  cases s with
  | mk d =>
    simp only at h
    rw [h]

theorem sortedTokenSet_sorted (s : String) :
    (sortedTokenSet s).Sorted (· ≤ ·) :=
  List.sorted_insertionSort _ _

theorem sortedTokenSet_nodup (s : String) : (sortedTokenSet s).Nodup :=
  ((List.perm_insertionSort _ _).nodup_iff).mpr (List.nodup_dedup _)

theorem mem_sortedTokenSet {t : String} {s : String} :
    t ∈ sortedTokenSet s ↔ t ∈ tokens s := by
  unfold sortedTokenSet
  rw [(List.perm_insertionSort _ _).mem_iff, List.mem_dedup]

theorem sect_comm (a b : String) :
    (sortedTokenSet a).filter (fun t => decide (t ∈ sortedTokenSet b)) =
      (sortedTokenSet b).filter (fun t => decide (t ∈ sortedTokenSet a)) := by
  apply List.eq_of_perm_of_sorted (r := (· ≤ ·))
  · rw [List.perm_ext_iff_of_nodup
      ((sortedTokenSet_nodup a).filter _) ((sortedTokenSet_nodup b).filter _)]
    intro t
    simp only [List.mem_filter, decide_eq_true_iff]
    exact ⟨fun ⟨h1, h2⟩ => ⟨h2, h1⟩, fun ⟨h1, h2⟩ => ⟨h2, h1⟩⟩
  · exact List.Pairwise.sublist (List.filter_sublist _) (sortedTokenSet_sorted a)
  · exact List.Pairwise.sublist (List.filter_sublist _) (sortedTokenSet_sorted b)

theorem token_set_ratio_comm (a b : String) :
    token_set_ratio a b = token_set_ratio b a := by
  simp only [token_set_ratio]
  rw [← sect_comm a b]
  rw [ratioFz_comm
    (joinSp ((sortedTokenSet a).filter (fun t => decide (t ∈ sortedTokenSet b)) ++
      (sortedTokenSet b).filter (fun t => decide (t ∉ sortedTokenSet a))))
    (joinSp ((sortedTokenSet a).filter (fun t => decide (t ∈ sortedTokenSet b)) ++
      (sortedTokenSet a).filter (fun t => decide (t ∉ sortedTokenSet b))))]
  rw [max_left_comm]

theorem token_set_ratio_self (a : String) : token_set_ratio a a = 100 := by
  simp only [token_set_ratio]
  have hsect : (sortedTokenSet a).filter (fun t => decide (t ∈ sortedTokenSet a)) =
      sortedTokenSet a :=
    List.filter_eq_self.mpr (fun t ht => by simp [ht])
  have hd : (sortedTokenSet a).filter (fun t => decide (t ∉ sortedTokenSet a)) = [] :=
    List.filter_eq_nil_iff.mpr (fun t ht => by simp [ht])
  simp only [hsect, hd, List.append_nil, ratioFz_self, max_self]

theorem splitWSAux_ne_nil : ∀ (l cur : List Char), cur ≠ [] →
    splitWSAux cur l ≠ [] := by
  intro l
  induction l with
  | nil =>
    intro cur h
    unfold splitWSAux
    rw [if_neg h]
    simp
  | cons c rest ih =>
    intro cur h
    unfold splitWSAux
    by_cases hs : isSpaceChar c = true
    · rw [if_pos hs, if_neg h]
      simp
    · rw [if_neg hs]
      exact ih (c :: cur) (List.cons_ne_nil _ _)

theorem splitWSAux_mem_ne_nil : ∀ (l cur : List Char) (t : List Char),
    t ∈ splitWSAux cur l → t ≠ [] := by
  intro l
  induction l with
  | nil =>
    intro cur t ht
    unfold splitWSAux at ht
    by_cases h : cur = []
    · rw [if_pos h] at ht
      cases ht
    · rw [if_neg h] at ht
      simp only [List.mem_singleton] at ht
      subst ht
      simpa [List.reverse_eq_nil_iff] using h
  | cons c rest ih =>
    intro cur t ht
    unfold splitWSAux at ht
    by_cases hs : isSpaceChar c = true
    · rw [if_pos hs] at ht
      by_cases h : cur = []
      · rw [if_pos h] at ht
        exact ih [] t ht
      · rw [if_neg h] at ht
        rcases List.mem_cons.mp ht with rfl | ht2
        · simpa [List.reverse_eq_nil_iff] using h
        · exact ih [] t ht2
    · rw [if_neg hs] at ht
      exact ih (c :: cur) t ht

theorem tokens_mem_ne_empty {a : String} {t : String} (h : t ∈ tokens a) :
    t ≠ "" := by
  unfold tokens at h
  obtain ⟨l, hl, rfl⟩ := List.mem_map.mp h
  intro hc
  have : l = [] := by
    have := congrArg String.data hc
    simpa using this
  exact splitWSAux_mem_ne_nil a.data [] l hl this

theorem tokens_ne_nil {a : String} (h1 : a ≠ "") (h2 : normFormB a.data = true) :
    tokens a ≠ [] := by
  have hdata : a.data ≠ [] := fun hc => h1 (data_eq_nil hc)
  cases hd : a.data with
  | nil => exact absurd hd hdata
  | cons c rest =>
    simp only [normFormB, Bool.and_eq_true] at h2
    have hh : isSpaceChar c = false := by
      have hh0 : headNotSpace a.data = true := h2.1.2
      rw [hd] at hh0
      simpa [headNotSpace, Bool.not_eq_true'] using hh0
    intro hc
    unfold tokens splitWS at hc
    rw [List.map_eq_nil_iff, hd] at hc
    have hstep : splitWSAux [] (c :: rest) = splitWSAux [c] rest := by
      simp only [splitWSAux]
      rw [if_neg (by simp [hh])]
    rw [hstep] at hc
    exact splitWSAux_ne_nil rest [c] (by simp) hc

theorem joinSp_ne_empty : ∀ (t : String) (ts : List String), t ≠ "" →
    joinSp (t :: ts) ≠ "" := by
  intro t ts ht
  cases ts with
  | nil => exact ht
  | cons u us =>
    intro hc
    have hj : joinSp (t :: u :: us) = t ++ " " ++ joinSp (u :: us) := rfl
    rw [hj] at hc
    have hlen := congrArg String.length hc
    rw [String.length_append, String.length_append] at hlen
    have h1 : (" " : String).length = 1 := rfl
    have h0 : ("" : String).length = 0 := rfl
    rw [h1, h0] at hlen
    omega

theorem part_token_sort_ratio_comm (a b : String) :
    part_token_sort_ratio a b = part_token_sort_ratio b a :=
  part_ratio_comm _ _

theorem part_token_sort_ratio_self {a : String} (h1 : a ≠ "")
    (h2 : normFormB a.data = true) : part_token_sort_ratio a a = 100 := by
  unfold part_token_sort_ratio
  apply part_ratio_self
  intro hc
  have hjoin : joinSp (sortedTokens a) = "" := data_eq_nil hc
  have htok : tokens a ≠ [] := tokens_ne_nil h1 h2
  cases hst : sortedTokens a with
  | nil =>
    apply htok
    have hlen := (List.perm_insertionSort (α := String) (· ≤ ·) (tokens a)).length_eq
    rw [show List.insertionSort (· ≤ ·) (tokens a) = sortedTokens a from rfl, hst] at hlen
    exact List.length_eq_zero.mp hlen.symm
  | cons t ts =>
    have hmem : t ∈ tokens a := by
      have : t ∈ sortedTokens a := by rw [hst]; exact List.mem_cons_self _ _
      unfold sortedTokens at this
      exact (List.perm_insertionSort _ _).mem_iff.mp this
    rw [hst] at hjoin
    exact joinSp_ne_empty t ts (tokens_mem_ne_empty hmem) hjoin

/-- C6: the similarity scoring used by the cascade is symmetric — both the
plain edit-distance ratio used for name comparison and the
max-of-token-set/partial-token-sort score used for property-name comparison —
and every non-empty normalized string scores exactly 100 against itself under
both. -/
theorem similarity_symmetric_self :
    (∀ a b : String, ratioFz a b = ratioFz b a) ∧
    (∀ a b : String, propScore a b = propScore b a) ∧
    (∀ a : String, a ≠ "" → ratioFz a a = 100) ∧
    (∀ a : String, a ≠ "" → normFormB a.data = true → propScore a a = 100) := by
  refine ⟨ratioFz_comm, ?_, fun a _ => ratioFz_self a, ?_⟩
  · intro a b
    unfold propScore
    rw [token_set_ratio_comm, part_token_sort_ratio_comm]
  · intro a h1 h2
    unfold propScore
    rw [token_set_ratio_self, part_token_sort_ratio_self h1 h2, max_self]

/-- Witness for C6 at a concrete normalized string. -/
theorem similarity_symmetric_self_witness :
    ratioFz "ab" "ab" = 100 ∧ propScore "ab" "ab" = 100 :=
  ⟨similarity_symmetric_self.2.2.1 "ab" (by decide),
   similarity_symmetric_self.2.2.2 "ab" (by decide) (by decide)⟩
